import Mathlib

/-!
# Verification of the NachOS three-queue scheduler

A shallow embedding of `threads/scheduler.cc` from the repository: a
uniprocessor scheduler keeping three ready queues (a Shortest-Job-First
queue sorted by predicted burst, a Round-Robin FIFO queue, and a Priority
queue sorted by descending priority), with admission (`ReadyToRun`),
starvation-prevention aging (`aging`), requalification (`processMoving`),
selection (`FindNextToRun`) and dispatch (`Run`).

Threads are mutable heap objects referenced from the queues; we model the
heap as a function from thread ids to thread records, and the queues as
lists of thread ids.  Ticks are naturals; priorities are integers (the
C++ `int`); the burst estimate (a C++ `double`) is modelled as an exact
rational.  The constants `SJF_SCHD_THRESHHOLD`, `PRI_SCHD_THRESHHOLD`,
`AGING_TICKS` and `PRIORITY_AGING` come from the missing `scheduler.h`,
so they are kept as parameters in a `Config` record.
-/

namespace NachosScheduler

/-- Thread ids stand for the `Thread *` pointers held by the queues. -/
abbrev ThreadId := Nat

/-- Thread status, from the spec's data model (scheduler.cc uses only
`READY` and `RUNNING`). -/
inductive ThreadStatus where
  | NEW
  | READY
  | RUNNING
  | BLOCKED
  | FINISHED
  deriving DecidableEq, Repr

/-- The scheduling-relevant fields of a `Thread` object:
`status`, `priority` (C++ `int`), `burstTime` (the burst estimate, a C++
`double` modelled as an exact rational), `startReadyTime` (tick at which
the thread last became ready) and `startBurst` (tick at which it last
started running). -/
structure ThreadData where
  status : ThreadStatus
  priority : Int
  burstTime : ℚ
  startReadyTime : Nat
  startBurst : Nat
  deriving DecidableEq, Repr

/-- The scheduling constants from the missing `scheduler.h`:
the two band thresholds, the aging interval and the aging boost. -/
structure Config where
  SJF_SCHD_THRESHHOLD : Int
  PRI_SCHD_THRESHHOLD : Int
  AGING_TICKS : Int
  PRIORITY_AGING : Int
  deriving DecidableEq, Repr

/-- Interrupt level (`kernel->interrupt->getLevel()`). -/
inductive IntStatus where
  | IntOff
  | IntOn
  deriving DecidableEq, Repr

/-- The scheduler state together with the parts of the kernel it reads:
the thread heap, the three ready queues (`readySJFList`, `readyRRList`,
`readyPriorityList`), the deferred-destruction slot `toBeDestroyed`,
`kernel->currentThread`, `kernel->stats->totalTicks` and the interrupt
level. -/
structure SchedState where
  threads : ThreadId → ThreadData
  readySJF : List ThreadId
  readyRR : List ThreadId
  readyPriority : List ThreadId
  toBeDestroyed : Option ThreadId
  currentThread : ThreadId
  totalTicks : Nat
  intLevel : IntStatus

/-- Heap update: mutating the `Thread` object behind one pointer. -/
def SchedState.setThread (s : SchedState) (tid : ThreadId) (d : ThreadData) : SchedState :=
  { s with threads := fun t => if t = tid then d else s.threads t }

/-- All three ready queues, concatenated (SJF, then RR, then Priority). -/
def allQueues (s : SchedState) : List ThreadId :=
  s.readySJF ++ s.readyRR ++ s.readyPriority

/-- Modelled from the spec: `SortedList<T>::Insert` from the repository's
`list.h` (not under `src/`).  It places the new item in front of the
first existing item that the comparison function says must come after
it, keeping equal items in insertion order (the spec's "ties broken by
arbitrary but stable order"). -/
def sortedInsert (lt : ThreadId → ThreadId → Bool) (item : ThreadId) :
    List ThreadId → List ThreadId
  | [] => [item]
  | x :: xs => if lt item x then item :: x :: xs else x :: sortedInsert lt item xs

/-- Modelled from the spec: `Thread::compare_by_priority` from the
repository's `thread.cc` (not under `src/`); the spec says the Priority
queue "orders by descending priority", so a thread strictly precedes
another exactly when its priority is larger. -/
def compare_by_priority (m : ThreadId → ThreadData) (a b : ThreadId) : Bool :=
  (m b).priority < (m a).priority

/-- Modelled from the spec: `Thread::compare_by_burst` from the
repository's `thread.cc` (not under `src/`); the spec says the SJF queue
"orders by ascending predicted burst", so a thread strictly precedes
another exactly when its burst estimate is smaller. -/
def compare_by_burst (m : ThreadId → ThreadData) (a b : ThreadId) : Bool :=
  (m a).burstTime < (m b).burstTime

/-- The thread record that `ReadyToRun` writes for the admitted thread:
`setStatus(READY)` and `setStartReadyTime(kernel->stats->totalTicks)`
(scheduler.cc:66-67). -/
def readiedData (s : SchedState) (tid : ThreadId) : ThreadData :=
  { s.threads tid with status := ThreadStatus.READY, startReadyTime := s.totalTicks }

/-- `Scheduler::ReadyToRun` (scheduler.cc:60-80), past its interrupt
assertion: set the status to `READY`, stamp `startReadyTime` with the
current tick, then append to the queue selected by the thread's priority
against the two thresholds.  The two sorted queues are `SortedList`s, so
(modelled from the spec's ordering guarantee) appending to them is the
sorted insertion. -/
def readyToRun (cfg : Config) (s : SchedState) (tid : ThreadId) : SchedState :=
  let s1 := s.setThread tid (readiedData s tid)
  let pri := (s1.threads tid).priority
  if cfg.SJF_SCHD_THRESHHOLD ≤ pri then
    { s1 with readySJF := sortedInsert (compare_by_burst s1.threads) tid s1.readySJF }
  else if cfg.PRI_SCHD_THRESHHOLD ≤ pri then
    { s1 with readyRR := s1.readyRR ++ [tid] }
  else
    { s1 with readyPriority := sortedInsert (compare_by_priority s1.threads) tid s1.readyPriority }

/-- The body of the loop in `Scheduler::aging` (scheduler.cc:87-96) for
one thread of the Priority queue: if the time waited since
`startReadyTime` has reached `AGING_TICKS`, boost the priority by
`PRIORITY_AGING`, re-stamp `startReadyTime`, and reposition the thread
in the sorted queue (`Remove` then `Insert`). -/
def agingStep (cfg : Config) (st : SchedState) (tid : ThreadId) : SchedState :=
  let d := st.threads tid
  if cfg.AGING_TICKS ≤ (st.totalTicks : Int) - (d.startReadyTime : Int) then
    let st1 := st.setThread tid
      { d with priority := cfg.PRIORITY_AGING + d.priority, startReadyTime := st.totalTicks }
    { st1 with readyPriority :=
        sortedInsert (compare_by_priority st1.threads) tid (st1.readyPriority.erase tid) }
  else st

/-- The loop of `Scheduler::aging` over the members of the Priority
queue.  The C++ iterator walks the nodes captured when it was created;
every reinsertion during the walk lands strictly before the cursor
(boosted priorities only grow), so the traversal is exactly a fold over
the snapshot of the queue taken at entry. -/
def agingBoost (cfg : Config) (s : SchedState) (snap : List ThreadId) : SchedState :=
  snap.foldl (agingStep cfg) s

/-- One step of the SJF pass of `Scheduler::processMoving`
(scheduler.cc:107-113): a thread whose priority has dropped below the
SJF threshold is removed from the SJF queue and re-admitted. -/
def movePassSJFStep (cfg : Config) (st : SchedState) (tid : ThreadId) : SchedState :=
  if (st.threads tid).priority < cfg.SJF_SCHD_THRESHHOLD then
    readyToRun cfg { st with readySJF := st.readySJF.erase tid } tid
  else st

/-- One step of the RR pass of `Scheduler::processMoving`
(scheduler.cc:115-122): a thread whose priority has left the Round-Robin
band in either direction is removed from the RR queue and re-admitted. -/
def movePassRRStep (cfg : Config) (st : SchedState) (tid : ThreadId) : SchedState :=
  if (st.threads tid).priority < cfg.PRI_SCHD_THRESHHOLD
      ∨ cfg.SJF_SCHD_THRESHHOLD ≤ (st.threads tid).priority then
    readyToRun cfg { st with readyRR := st.readyRR.erase tid } tid
  else st

/-- One step of the Priority pass of `Scheduler::processMoving`
(scheduler.cc:124-130): a thread whose priority has risen to the
Round-Robin band or higher is removed from the Priority queue and
re-admitted. -/
def movePassPriStep (cfg : Config) (st : SchedState) (tid : ThreadId) : SchedState :=
  if cfg.PRI_SCHD_THRESHHOLD ≤ (st.threads tid).priority then
    readyToRun cfg { st with readyPriority := st.readyPriority.erase tid } tid
  else st

/-- `Scheduler::processMoving` (scheduler.cc:100-131): the three
iterators are created before any pass runs, so each pass folds over the
snapshot of its queue taken at entry; threads appended to another queue
during a pass are either never reached by that queue's iterator or fail
its movement test, so the snapshot fold is the traversal the code
performs. -/
def processMoving (cfg : Config) (s : SchedState) : SchedState :=
  let snapSJF := s.readySJF
  let snapRR := s.readyRR
  let snapPri := s.readyPriority
  let s1 := snapSJF.foldl (movePassSJFStep cfg) s
  let s2 := snapRR.foldl (movePassRRStep cfg) s1
  snapPri.foldl (movePassPriStep cfg) s2

/-- `Scheduler::aging` (scheduler.cc:82-98) as invoked on the Priority
queue: boost every long-waiting member, then requalify all queues. -/
def aging (cfg : Config) (s : SchedState) : SchedState :=
  processMoving cfg (agingBoost cfg s s.readyPriority)

/-- `Scheduler::FindNextToRun` (scheduler.cc:141-157), past its
interrupt assertion: run `aging` on the Priority queue, then pop the
front of the first non-empty queue in the order SJF, RR, Priority;
return `none` (the C++ `NULL`) when all three are empty. -/
def findNextToRun (cfg : Config) (s : SchedState) : Option ThreadId × SchedState :=
  let sa := aging cfg s
  match sa.readySJF with
  | t :: rest => (some t, { sa with readySJF := rest })
  | [] =>
    match sa.readyRR with
    | t :: rest => (some t, { sa with readyRR := rest })
    | [] =>
      match sa.readyPriority with
      | t :: rest => (some t, { sa with readyPriority := rest })
      | [] => (none, sa)

/-- `Scheduler::ReadyToRun` including its `ASSERT` on the interrupt
level (scheduler.cc:63): `none` models the fatal assertion halting the
system before any mutation. -/
def readyToRunChecked (cfg : Config) (s : SchedState) (tid : ThreadId) : Option SchedState :=
  if s.intLevel = IntStatus.IntOff then some (readyToRun cfg s tid) else none

/-- `Scheduler::FindNextToRun` including its `ASSERT` on the interrupt
level (scheduler.cc:144). -/
def findNextToRunChecked (cfg : Config) (s : SchedState) :
    Option (Option ThreadId × SchedState) :=
  if s.intLevel = IntStatus.IntOff then some (findNextToRun cfg s) else none

/-- `Scheduler::Run` (scheduler.cc:176-215) up to and including the
invocation of the opaque `SWITCH` primitive (the code after `SWITCH`
belongs to the resumption of an earlier invocation, running much later).
`none` models a fatal assertion (interrupt level, or `toBeDestroyed`
already occupied while `finishing`); otherwise the result carries the
state as left at the `SWITCH` call and a flag telling whether `SWITCH`
was invoked at all.  Faithful to the source, the same-thread fast exit
comes before the interrupt assertion. -/
def run (_cfg : Config) (s : SchedState) (nextThread : ThreadId) (finishing : Bool) :
    Option (SchedState × Bool) :=
  let oldThread := s.currentThread
  if oldThread = nextThread then some (s, false)
  else if ¬ s.intLevel = IntStatus.IntOff then none
  else if finishing = true ∧ ¬ s.toBeDestroyed = none then none
  else
    let s1 := if finishing then { s with toBeDestroyed := some oldThread } else s
    let d := s1.threads oldThread
    let predicted : ℚ :=
      (1 / 2 : ℚ) * ((((s1.totalTicks : Int) - (d.startBurst : Int) : Int) : ℚ) + d.burstTime)
    let s2 := s1.setThread oldThread { d with burstTime := predicted }
    let s3 := s2.setThread nextThread { s2.threads nextThread with startBurst := s2.totalTicks }
    let s4 := { s3 with currentThread := nextThread }
    let s5 := s4.setThread nextThread { s4.threads nextThread with status := ThreadStatus.RUNNING }
    some (s5, true)

/-- `Scheduler::CheckToBeDestroyed` (scheduler.cc:242-249): drain the
deferred-destruction slot (the `delete` frees resources outside the
scheduler state). -/
def checkToBeDestroyed (s : SchedState) : SchedState :=
  { s with toBeDestroyed := none }

/-- The partition invariant on the ready queues: every thread of the
SJF queue is at or above the SJF threshold, every thread of the RR
queue is in the middle band, every thread of the Priority queue is
below the priority threshold, no thread occurs twice across the three
queues, and every queued thread has status `READY`. -/
def Inv (cfg : Config) (s : SchedState) : Prop :=
  (∀ t ∈ s.readySJF, cfg.SJF_SCHD_THRESHHOLD ≤ (s.threads t).priority) ∧
  (∀ t ∈ s.readyRR, cfg.PRI_SCHD_THRESHHOLD ≤ (s.threads t).priority ∧
      (s.threads t).priority < cfg.SJF_SCHD_THRESHHOLD) ∧
  (∀ t ∈ s.readyPriority, (s.threads t).priority < cfg.PRI_SCHD_THRESHHOLD) ∧
  (allQueues s).Nodup ∧
  (∀ t ∈ allQueues s, (s.threads t).status = ThreadStatus.READY)

instance (cfg : Config) (s : SchedState) : Decidable (Inv cfg s) := by
  unfold Inv; infer_instance

/-- The Priority queue's ordering: descending priority from front to
back (what `compare_by_priority` maintains). -/
def sortedByPriority (m : ThreadId → ThreadData) (l : List ThreadId) : Prop :=
  l.Pairwise (fun a b => (m b).priority ≤ (m a).priority)

instance (m : ThreadId → ThreadData) (l : List ThreadId) :
    Decidable (sortedByPriority m l) := by
  unfold sortedByPriority; infer_instance

/-- The scheduler states reachable through the scheduler's own entry
points, used under their documented protocol: queues start empty, the
tick counter may advance, `ReadyToRun` is called for threads that are
not currently queued, `FindNextToRun` pops, `Run` dispatches to a
thread that is not queued (the one just popped), and the destruction
check drains the pending slot. -/
inductive Reachable (cfg : Config) : SchedState → Prop where
  | init (threads : ThreadId → ThreadData) (cur : ThreadId) (ticks : Nat) (lvl : IntStatus) :
      Reachable cfg { threads := threads, readySJF := [], readyRR := [], readyPriority := [],
                      toBeDestroyed := none, currentThread := cur, totalTicks := ticks,
                      intLevel := lvl }
  | tick (s : SchedState) (t : Nat) : Reachable cfg s →
      Reachable cfg { s with totalTicks := t }
  | enqueue (s : SchedState) (tid : ThreadId) : Reachable cfg s → tid ∉ allQueues s →
      Reachable cfg (readyToRun cfg s tid)
  | select (s : SchedState) : Reachable cfg s →
      Reachable cfg (findNextToRun cfg s).2
  | dispatch (s s' : SchedState) (next : ThreadId) (finishing : Bool) (b : Bool) :
      Reachable cfg s → next ∉ allQueues s →
      run cfg s next finishing = some (s', b) → Reachable cfg s'
  | destroy (s : SchedState) : Reachable cfg s →
      Reachable cfg (checkToBeDestroyed s)

/-! ## Basic lemmas about the building blocks -/

theorem sortedInsert_perm (lt : ThreadId → ThreadId → Bool) (a : ThreadId) :
    ∀ l : List ThreadId, List.Perm (sortedInsert lt a l) (a :: l) := by
  intro l
  induction l with
  | nil => simp [sortedInsert]
  | cons x xs ih =>
    by_cases h : lt a x
    · simp [sortedInsert, h]
    · simp only [sortedInsert, h, if_neg, Bool.false_eq_true, ite_false]
      exact (ih.cons x).trans (List.Perm.swap a x xs)

theorem mem_sortedInsert (lt : ThreadId → ThreadId → Bool) (a b : ThreadId)
    (l : List ThreadId) : b ∈ sortedInsert lt a l ↔ b = a ∨ b ∈ l := by
  rw [(sortedInsert_perm lt a l).mem_iff, List.mem_cons]

@[simp] theorem setThread_threads (s : SchedState) (tid : ThreadId) (d : ThreadData)
    (t : ThreadId) : (s.setThread tid d).threads t = if t = tid then d else s.threads t := rfl

@[simp] theorem setThread_readySJF (s : SchedState) (tid : ThreadId) (d : ThreadData) :
    (s.setThread tid d).readySJF = s.readySJF := rfl

@[simp] theorem setThread_readyRR (s : SchedState) (tid : ThreadId) (d : ThreadData) :
    (s.setThread tid d).readyRR = s.readyRR := rfl

@[simp] theorem setThread_readyPriority (s : SchedState) (tid : ThreadId) (d : ThreadData) :
    (s.setThread tid d).readyPriority = s.readyPriority := rfl

@[simp] theorem setThread_totalTicks (s : SchedState) (tid : ThreadId) (d : ThreadData) :
    (s.setThread tid d).totalTicks = s.totalTicks := rfl

@[simp] theorem setThread_currentThread (s : SchedState) (tid : ThreadId) (d : ThreadData) :
    (s.setThread tid d).currentThread = s.currentThread := rfl

@[simp] theorem setThread_toBeDestroyed (s : SchedState) (tid : ThreadId) (d : ThreadData) :
    (s.setThread tid d).toBeDestroyed = s.toBeDestroyed := rfl

@[simp] theorem setThread_intLevel (s : SchedState) (tid : ThreadId) (d : ThreadData) :
    (s.setThread tid d).intLevel = s.intLevel := rfl

@[simp] theorem readiedData_priority (s : SchedState) (tid : ThreadId) :
    (readiedData s tid).priority = (s.threads tid).priority := rfl

@[simp] theorem readiedData_burstTime (s : SchedState) (tid : ThreadId) :
    (readiedData s tid).burstTime = (s.threads tid).burstTime := rfl

@[simp] theorem readiedData_status (s : SchedState) (tid : ThreadId) :
    (readiedData s tid).status = ThreadStatus.READY := rfl

@[simp] theorem readiedData_startReadyTime (s : SchedState) (tid : ThreadId) :
    (readiedData s tid).startReadyTime = s.totalTicks := rfl

theorem readied_lookup (s : SchedState) (tid : ThreadId) :
    (s.setThread tid (readiedData s tid)).threads tid = readiedData s tid := by simp

/-- The SJF branch of `ReadyToRun`. -/
theorem readyToRun_eq_sjf (cfg : Config) (s : SchedState) (tid : ThreadId)
    (h1 : cfg.SJF_SCHD_THRESHHOLD ≤ (s.threads tid).priority) :
    readyToRun cfg s tid =
      { s.setThread tid (readiedData s tid) with
        readySJF := sortedInsert (compare_by_burst (s.setThread tid (readiedData s tid)).threads)
          tid s.readySJF } := by
  have hc : cfg.SJF_SCHD_THRESHHOLD ≤
      ((s.setThread tid (readiedData s tid)).threads tid).priority := by
    rw [readied_lookup, readiedData_priority]; exact h1
  unfold readyToRun
  rw [if_pos hc]
  rfl

/-- The Round-Robin branch of `ReadyToRun`. -/
theorem readyToRun_eq_rr (cfg : Config) (s : SchedState) (tid : ThreadId)
    (h1 : ¬ cfg.SJF_SCHD_THRESHHOLD ≤ (s.threads tid).priority)
    (h2 : cfg.PRI_SCHD_THRESHHOLD ≤ (s.threads tid).priority) :
    readyToRun cfg s tid =
      { s.setThread tid (readiedData s tid) with readyRR := s.readyRR ++ [tid] } := by
  have hc1 : ¬ cfg.SJF_SCHD_THRESHHOLD ≤
      ((s.setThread tid (readiedData s tid)).threads tid).priority := by
    rw [readied_lookup, readiedData_priority]; exact h1
  have hc2 : cfg.PRI_SCHD_THRESHHOLD ≤
      ((s.setThread tid (readiedData s tid)).threads tid).priority := by
    rw [readied_lookup, readiedData_priority]; exact h2
  unfold readyToRun
  rw [if_neg hc1, if_pos hc2]
  rfl

/-- The Priority branch of `ReadyToRun`. -/
theorem readyToRun_eq_pri (cfg : Config) (s : SchedState) (tid : ThreadId)
    (h1 : ¬ cfg.SJF_SCHD_THRESHHOLD ≤ (s.threads tid).priority)
    (h2 : ¬ cfg.PRI_SCHD_THRESHHOLD ≤ (s.threads tid).priority) :
    readyToRun cfg s tid =
      { s.setThread tid (readiedData s tid) with
        readyPriority :=
          sortedInsert (compare_by_priority (s.setThread tid (readiedData s tid)).threads)
            tid s.readyPriority } := by
  have hc1 : ¬ cfg.SJF_SCHD_THRESHHOLD ≤
      ((s.setThread tid (readiedData s tid)).threads tid).priority := by
    rw [readied_lookup, readiedData_priority]; exact h1
  have hc2 : ¬ cfg.PRI_SCHD_THRESHHOLD ≤
      ((s.setThread tid (readiedData s tid)).threads tid).priority := by
    rw [readied_lookup, readiedData_priority]; exact h2
  unfold readyToRun
  rw [if_neg hc1, if_neg hc2]
  rfl

/-- Case analysis principle for `ReadyToRun`: a property holds of its
result as soon as it holds of each of the three branch shapes under the
source's branch conditions. -/
theorem readyToRun_by_cases (cfg : Config) (s : SchedState) (tid : ThreadId)
    {motive : SchedState → Prop}
    (hsjf : cfg.SJF_SCHD_THRESHHOLD ≤ (s.threads tid).priority →
      motive { s.setThread tid (readiedData s tid) with
        readySJF := sortedInsert (compare_by_burst (s.setThread tid (readiedData s tid)).threads)
          tid s.readySJF })
    (hrr : ¬ cfg.SJF_SCHD_THRESHHOLD ≤ (s.threads tid).priority →
      cfg.PRI_SCHD_THRESHHOLD ≤ (s.threads tid).priority →
      motive { s.setThread tid (readiedData s tid) with readyRR := s.readyRR ++ [tid] })
    (hpri : ¬ cfg.SJF_SCHD_THRESHHOLD ≤ (s.threads tid).priority →
      ¬ cfg.PRI_SCHD_THRESHHOLD ≤ (s.threads tid).priority →
      motive { s.setThread tid (readiedData s tid) with
        readyPriority :=
          sortedInsert (compare_by_priority (s.setThread tid (readiedData s tid)).threads)
            tid s.readyPriority }) :
    motive (readyToRun cfg s tid) := by
  by_cases h1 : cfg.SJF_SCHD_THRESHHOLD ≤ (s.threads tid).priority
  · rw [readyToRun_eq_sjf cfg s tid h1]; exact hsjf h1
  · by_cases h2 : cfg.PRI_SCHD_THRESHHOLD ≤ (s.threads tid).priority
    · rw [readyToRun_eq_rr cfg s tid h1 h2]; exact hrr h1 h2
    · rw [readyToRun_eq_pri cfg s tid h1 h2]; exact hpri h1 h2

theorem readyToRun_totalTicks (cfg : Config) (s : SchedState) (tid : ThreadId) :
    (readyToRun cfg s tid).totalTicks = s.totalTicks := by
  refine readyToRun_by_cases cfg s tid
    (motive := fun st => st.totalTicks = s.totalTicks) ?_ ?_ ?_ <;> intros <;> rfl

theorem readyToRun_currentThread (cfg : Config) (s : SchedState) (tid : ThreadId) :
    (readyToRun cfg s tid).currentThread = s.currentThread := by
  refine readyToRun_by_cases cfg s tid
    (motive := fun st => st.currentThread = s.currentThread) ?_ ?_ ?_ <;> intros <;> rfl

theorem readyToRun_toBeDestroyed (cfg : Config) (s : SchedState) (tid : ThreadId) :
    (readyToRun cfg s tid).toBeDestroyed = s.toBeDestroyed := by
  refine readyToRun_by_cases cfg s tid
    (motive := fun st => st.toBeDestroyed = s.toBeDestroyed) ?_ ?_ ?_ <;> intros <;> rfl

theorem readyToRun_intLevel (cfg : Config) (s : SchedState) (tid : ThreadId) :
    (readyToRun cfg s tid).intLevel = s.intLevel := by
  refine readyToRun_by_cases cfg s tid
    (motive := fun st => st.intLevel = s.intLevel) ?_ ?_ ?_ <;> intros <;> rfl

theorem readyToRun_threads (cfg : Config) (s : SchedState) (tid t : ThreadId) :
    (readyToRun cfg s tid).threads t = if t = tid then readiedData s tid else s.threads t := by
  refine readyToRun_by_cases cfg s tid
    (motive := fun st => st.threads t = if t = tid then readiedData s tid else s.threads t)
    ?_ ?_ ?_ <;> intros <;> rfl

/-- Admission adds exactly the admitted thread to the union of the
queues, no matter which band it lands in. -/
theorem readyToRun_allQueues_perm (cfg : Config) (s : SchedState) (tid : ThreadId) :
    List.Perm (allQueues (readyToRun cfg s tid)) (tid :: allQueues s) := by
  refine readyToRun_by_cases cfg s tid
    (motive := fun st => List.Perm (allQueues st) (tid :: allQueues s))
    ?_ ?_ ?_ <;> intros <;> unfold allQueues <;>
    simp only [setThread_readySJF, setThread_readyRR, setThread_readyPriority]
  · exact ((sortedInsert_perm _ tid s.readySJF).append_right _).append_right _
  · have e1 : s.readySJF ++ (s.readyRR ++ [tid]) ++ s.readyPriority
        = (s.readySJF ++ s.readyRR) ++ (tid :: s.readyPriority) := by
      simp [List.append_assoc]
    rw [e1]
    exact List.perm_middle
  · exact List.Perm.trans
      ((sortedInsert_perm _ tid s.readyPriority).append_left (s.readySJF ++ s.readyRR))
      List.perm_middle

theorem mem_allQueues_iff (s : SchedState) (t : ThreadId) :
    t ∈ allQueues s ↔ t ∈ s.readySJF ∨ t ∈ s.readyRR ∨ t ∈ s.readyPriority := by
  simp [allQueues, List.mem_append, or_assoc]

/-- `ReadyToRun` and the SJF queue: the thread is prepended (up to
order) exactly when its priority reaches the SJF threshold. -/
theorem readyToRun_readySJF_perm (cfg : Config) (s : SchedState) (tid : ThreadId) :
    List.Perm (readyToRun cfg s tid).readySJF
      (if cfg.SJF_SCHD_THRESHHOLD ≤ (s.threads tid).priority
        then tid :: s.readySJF else s.readySJF) := by
  by_cases h1 : cfg.SJF_SCHD_THRESHHOLD ≤ (s.threads tid).priority
  · rw [readyToRun_eq_sjf cfg s tid h1, if_pos h1]
    exact sortedInsert_perm _ tid s.readySJF
  · rw [if_neg h1]
    by_cases h2 : cfg.PRI_SCHD_THRESHHOLD ≤ (s.threads tid).priority
    · rw [readyToRun_eq_rr cfg s tid h1 h2]
      exact List.Perm.refl _
    · rw [readyToRun_eq_pri cfg s tid h1 h2]
      exact List.Perm.refl _

/-- `ReadyToRun` and the RR queue: the thread is appended at the back
exactly when its priority falls strictly between the two thresholds. -/
theorem readyToRun_readyRR_eq (cfg : Config) (s : SchedState) (tid : ThreadId) :
    (readyToRun cfg s tid).readyRR =
      if ¬ cfg.SJF_SCHD_THRESHHOLD ≤ (s.threads tid).priority
          ∧ cfg.PRI_SCHD_THRESHHOLD ≤ (s.threads tid).priority
        then s.readyRR ++ [tid] else s.readyRR := by
  by_cases h1 : cfg.SJF_SCHD_THRESHHOLD ≤ (s.threads tid).priority
  · rw [readyToRun_eq_sjf cfg s tid h1, if_neg (by simp [h1])]
    rfl
  · by_cases h2 : cfg.PRI_SCHD_THRESHHOLD ≤ (s.threads tid).priority
    · rw [readyToRun_eq_rr cfg s tid h1 h2, if_pos ⟨h1, h2⟩]
    · rw [readyToRun_eq_pri cfg s tid h1 h2, if_neg (by simp [h2])]
      rfl

/-- `ReadyToRun` and the Priority queue: the thread is inserted (up to
order) exactly when its priority is below both thresholds. -/
theorem readyToRun_readyPriority_perm (cfg : Config) (s : SchedState) (tid : ThreadId) :
    List.Perm (readyToRun cfg s tid).readyPriority
      (if ¬ cfg.SJF_SCHD_THRESHHOLD ≤ (s.threads tid).priority
          ∧ ¬ cfg.PRI_SCHD_THRESHHOLD ≤ (s.threads tid).priority
        then tid :: s.readyPriority else s.readyPriority) := by
  by_cases h1 : cfg.SJF_SCHD_THRESHHOLD ≤ (s.threads tid).priority
  · rw [readyToRun_eq_sjf cfg s tid h1, if_neg (by simp [h1])]
    exact List.Perm.refl _
  · by_cases h2 : cfg.PRI_SCHD_THRESHHOLD ≤ (s.threads tid).priority
    · rw [readyToRun_eq_rr cfg s tid h1 h2, if_neg (by simp [h2])]
      exact List.Perm.refl _
    · rw [readyToRun_eq_pri cfg s tid h1 h2, if_pos ⟨h1, h2⟩]
      exact sortedInsert_perm _ tid s.readyPriority

theorem readyToRun_mem_sjf_elim (cfg : Config) (s : SchedState) (tid t : ThreadId)
    (ht : t ∈ (readyToRun cfg s tid).readySJF) :
    (t = tid ∧ cfg.SJF_SCHD_THRESHHOLD ≤ (s.threads tid).priority) ∨ t ∈ s.readySJF := by
  have hm := (readyToRun_readySJF_perm cfg s tid).mem_iff.mp ht
  by_cases h1 : cfg.SJF_SCHD_THRESHHOLD ≤ (s.threads tid).priority
  · rw [if_pos h1, List.mem_cons] at hm
    rcases hm with hm | hm
    · exact Or.inl ⟨hm, h1⟩
    · exact Or.inr hm
  · rw [if_neg h1] at hm
    exact Or.inr hm

theorem readyToRun_mem_rr_elim (cfg : Config) (s : SchedState) (tid t : ThreadId)
    (ht : t ∈ (readyToRun cfg s tid).readyRR) :
    (t = tid ∧ ¬ cfg.SJF_SCHD_THRESHHOLD ≤ (s.threads tid).priority
      ∧ cfg.PRI_SCHD_THRESHHOLD ≤ (s.threads tid).priority) ∨ t ∈ s.readyRR := by
  rw [readyToRun_readyRR_eq cfg s tid] at ht
  by_cases h : ¬ cfg.SJF_SCHD_THRESHHOLD ≤ (s.threads tid).priority
      ∧ cfg.PRI_SCHD_THRESHHOLD ≤ (s.threads tid).priority
  · rw [if_pos h] at ht
    rcases List.mem_append.mp ht with ht | ht
    · exact Or.inr ht
    · exact Or.inl ⟨List.mem_singleton.mp ht, h.1, h.2⟩
  · rw [if_neg h] at ht
    exact Or.inr ht

theorem readyToRun_mem_pri_elim (cfg : Config) (s : SchedState) (tid t : ThreadId)
    (ht : t ∈ (readyToRun cfg s tid).readyPriority) :
    (t = tid ∧ ¬ cfg.SJF_SCHD_THRESHHOLD ≤ (s.threads tid).priority
      ∧ ¬ cfg.PRI_SCHD_THRESHHOLD ≤ (s.threads tid).priority) ∨ t ∈ s.readyPriority := by
  have hm := (readyToRun_readyPriority_perm cfg s tid).mem_iff.mp ht
  by_cases h : ¬ cfg.SJF_SCHD_THRESHHOLD ≤ (s.threads tid).priority
      ∧ ¬ cfg.PRI_SCHD_THRESHHOLD ≤ (s.threads tid).priority
  · rw [if_pos h, List.mem_cons] at hm
    rcases hm with hm | hm
    · exact Or.inl ⟨hm, h.1, h.2⟩
    · exact Or.inr hm
  · rw [if_neg h] at hm
    exact Or.inr hm

theorem readyToRun_mem_sjf_mono (cfg : Config) (s : SchedState) (tid t : ThreadId)
    (ht : t ∈ s.readySJF) : t ∈ (readyToRun cfg s tid).readySJF := by
  rw [(readyToRun_readySJF_perm cfg s tid).mem_iff]
  split
  · exact List.mem_cons_of_mem tid ht
  · exact ht

theorem readyToRun_mem_rr_mono (cfg : Config) (s : SchedState) (tid t : ThreadId)
    (ht : t ∈ s.readyRR) : t ∈ (readyToRun cfg s tid).readyRR := by
  rw [readyToRun_readyRR_eq cfg s tid]
  split
  · exact List.mem_append_left _ ht
  · exact ht

theorem readyToRun_mem_pri_mono (cfg : Config) (s : SchedState) (tid t : ThreadId)
    (ht : t ∈ s.readyPriority) : t ∈ (readyToRun cfg s tid).readyPriority := by
  rw [(readyToRun_readyPriority_perm cfg s tid).mem_iff]
  split
  · exact List.mem_cons_of_mem tid ht
  · exact ht

theorem readyToRun_mem_self (cfg : Config) (s : SchedState) (tid : ThreadId) :
    tid ∈ allQueues (readyToRun cfg s tid) :=
  (readyToRun_allQueues_perm cfg s tid).mem_iff.mpr (List.mem_cons_self tid _)

theorem readyToRun_nodup (cfg : Config) (s : SchedState) (tid : ThreadId)
    (hno : tid ∉ allQueues s) (hn : (allQueues s).Nodup) :
    (allQueues (readyToRun cfg s tid)).Nodup :=
  ((readyToRun_allQueues_perm cfg s tid).nodup_iff).mpr (List.nodup_cons.mpr ⟨hno, hn⟩)

/-- Admission preserves the partition invariant, provided the admitted
thread was not already queued. -/
theorem readyToRun_Inv (cfg : Config) (s : SchedState) (tid : ThreadId)
    (hno : tid ∉ allQueues s) (hInv : Inv cfg s) : Inv cfg (readyToRun cfg s tid) := by
  obtain ⟨hS, hR, hP, hN, hst⟩ := hInv
  have hnoS : tid ∉ s.readySJF := fun h => hno ((mem_allQueues_iff s tid).mpr (Or.inl h))
  have hnoR : tid ∉ s.readyRR := fun h => hno ((mem_allQueues_iff s tid).mpr (Or.inr (Or.inl h)))
  have hnoP : tid ∉ s.readyPriority :=
    fun h => hno ((mem_allQueues_iff s tid).mpr (Or.inr (Or.inr h)))
  have hthr := readyToRun_threads cfg s tid
  refine ⟨?_, ?_, ?_, readyToRun_nodup cfg s tid hno hN, ?_⟩
  · intro t ht
    rcases readyToRun_mem_sjf_elim cfg s tid t ht with ⟨rfl, h1⟩ | ht'
    · rw [hthr t, if_pos rfl]
      simpa using h1
    · have hne : t ≠ tid := fun h => hnoS (h ▸ ht')
      rw [hthr t, if_neg hne]
      exact hS t ht'
  · intro t ht
    rcases readyToRun_mem_rr_elim cfg s tid t ht with ⟨rfl, h1, h2⟩ | ht'
    · rw [hthr t, if_pos rfl]
      constructor
      · simpa using h2
      · simpa using lt_of_not_le h1
    · have hne : t ≠ tid := fun h => hnoR (h ▸ ht')
      rw [hthr t, if_neg hne]
      exact hR t ht'
  · intro t ht
    rcases readyToRun_mem_pri_elim cfg s tid t ht with ⟨rfl, _, h2⟩ | ht'
    · rw [hthr t, if_pos rfl]
      simpa using lt_of_not_le h2
    · have hne : t ≠ tid := fun h => hnoP (h ▸ ht')
      rw [hthr t, if_neg hne]
      exact hP t ht'
  · intro t ht
    by_cases hne : t = tid
    · subst hne
      rw [hthr t, if_pos rfl]
      rfl
    · rw [hthr t, if_neg hne]
      have ht' : t ∈ allQueues s := by
        have := (readyToRun_allQueues_perm cfg s tid).mem_iff.mp ht
        rcases List.mem_cons.mp this with h | h
        · exact absurd h hne
        · exact h
      exact hst t ht'

/-! ## The aging boost loop -/

/-- A thread record after one aging boost: priority raised by
`PRIORITY_AGING` and `startReadyTime` re-stamped. -/
def boostedData (cfg : Config) (now : Nat) (d : ThreadData) : ThreadData :=
  { d with priority := cfg.PRIORITY_AGING + d.priority, startReadyTime := now }

/-- The effect of one `aging` loop iteration on the thread's own record:
boosted and re-stamped when it has waited at least `AGING_TICKS`,
untouched otherwise. -/
def agedData (cfg : Config) (now : Nat) (d : ThreadData) : ThreadData :=
  if cfg.AGING_TICKS ≤ (now : Int) - (d.startReadyTime : Int) then boostedData cfg now d
  else d

theorem agingStep_threads (cfg : Config) (st : SchedState) (tid t : ThreadId) :
    (agingStep cfg st tid).threads t =
      if t = tid then agedData cfg st.totalTicks (st.threads tid) else st.threads t := by
  unfold agingStep agedData
  by_cases hc : cfg.AGING_TICKS ≤ (st.totalTicks : Int) - ((st.threads tid).startReadyTime : Int)
  · rw [if_pos hc]
    show (st.setThread tid _).threads t = _
    rw [setThread_threads, if_pos hc]
    simp only [boostedData]
  · rw [if_neg hc, if_neg hc]
    by_cases het : t = tid
    · subst het
      rw [if_pos rfl]
    · rw [if_neg het]

theorem agingStep_readySJF (cfg : Config) (st : SchedState) (tid : ThreadId) :
    (agingStep cfg st tid).readySJF = st.readySJF := by
  unfold agingStep
  by_cases hc : cfg.AGING_TICKS ≤ (st.totalTicks : Int) - ((st.threads tid).startReadyTime : Int)
  · rw [if_pos hc]
    rfl
  · rw [if_neg hc]

theorem agingStep_readyRR (cfg : Config) (st : SchedState) (tid : ThreadId) :
    (agingStep cfg st tid).readyRR = st.readyRR := by
  unfold agingStep
  by_cases hc : cfg.AGING_TICKS ≤ (st.totalTicks : Int) - ((st.threads tid).startReadyTime : Int)
  · rw [if_pos hc]
    rfl
  · rw [if_neg hc]

theorem agingStep_totalTicks (cfg : Config) (st : SchedState) (tid : ThreadId) :
    (agingStep cfg st tid).totalTicks = st.totalTicks := by
  unfold agingStep
  by_cases hc : cfg.AGING_TICKS ≤ (st.totalTicks : Int) - ((st.threads tid).startReadyTime : Int)
  · rw [if_pos hc]
    rfl
  · rw [if_neg hc]

theorem agingStep_currentThread (cfg : Config) (st : SchedState) (tid : ThreadId) :
    (agingStep cfg st tid).currentThread = st.currentThread := by
  unfold agingStep
  by_cases hc : cfg.AGING_TICKS ≤ (st.totalTicks : Int) - ((st.threads tid).startReadyTime : Int)
  · rw [if_pos hc]
    rfl
  · rw [if_neg hc]

theorem agingStep_toBeDestroyed (cfg : Config) (st : SchedState) (tid : ThreadId) :
    (agingStep cfg st tid).toBeDestroyed = st.toBeDestroyed := by
  unfold agingStep
  by_cases hc : cfg.AGING_TICKS ≤ (st.totalTicks : Int) - ((st.threads tid).startReadyTime : Int)
  · rw [if_pos hc]
    rfl
  · rw [if_neg hc]

theorem agingStep_intLevel (cfg : Config) (st : SchedState) (tid : ThreadId) :
    (agingStep cfg st tid).intLevel = st.intLevel := by
  unfold agingStep
  by_cases hc : cfg.AGING_TICKS ≤ (st.totalTicks : Int) - ((st.threads tid).startReadyTime : Int)
  · rw [if_pos hc]
    rfl
  · rw [if_neg hc]

theorem agingStep_readyPriority_perm (cfg : Config) (st : SchedState) (tid : ThreadId)
    (hmem : tid ∈ st.readyPriority) :
    List.Perm (agingStep cfg st tid).readyPriority st.readyPriority := by
  unfold agingStep
  by_cases hc : cfg.AGING_TICKS ≤ (st.totalTicks : Int) - ((st.threads tid).startReadyTime : Int)
  · rw [if_pos hc]
    exact ((sortedInsert_perm _ tid _).trans (List.perm_cons_erase hmem).symm)
  · rw [if_neg hc]

theorem agingBoost_threads (cfg : Config) :
    ∀ (snap : List ThreadId) (s : SchedState), snap.Nodup →
    ∀ t, (agingBoost cfg s snap).threads t =
      if t ∈ snap then agedData cfg s.totalTicks (s.threads t) else s.threads t := by
  intro snap
  induction snap with
  | nil => intro s _ t; simp [agingBoost]
  | cons hd rest ih =>
    intro s hnd t
    have hhd : hd ∉ rest := (List.nodup_cons.mp hnd).1
    have hrest : rest.Nodup := (List.nodup_cons.mp hnd).2
    have hstep : agingBoost cfg s (hd :: rest) = agingBoost cfg (agingStep cfg s hd) rest := rfl
    rw [hstep, ih (agingStep cfg s hd) hrest t, agingStep_totalTicks]
    by_cases het : t = hd
    · subst het
      rw [if_neg hhd, agingStep_threads, if_pos rfl, if_pos (List.mem_cons_self t rest)]
    · rw [agingStep_threads, if_neg het]
      by_cases htr : t ∈ rest
      · rw [if_pos htr, if_pos (List.mem_cons_of_mem hd htr)]
      · rw [if_neg htr, if_neg (by simp [het, htr])]

theorem agingBoost_queues (cfg : Config) :
    ∀ (snap : List ThreadId) (s : SchedState), (∀ t ∈ snap, t ∈ s.readyPriority) →
    (agingBoost cfg s snap).readySJF = s.readySJF ∧
    (agingBoost cfg s snap).readyRR = s.readyRR ∧
    List.Perm (agingBoost cfg s snap).readyPriority s.readyPriority ∧
    (agingBoost cfg s snap).totalTicks = s.totalTicks ∧
    (agingBoost cfg s snap).currentThread = s.currentThread ∧
    (agingBoost cfg s snap).toBeDestroyed = s.toBeDestroyed ∧
    (agingBoost cfg s snap).intLevel = s.intLevel := by
  intro snap
  induction snap with
  | nil =>
    intro s _
    exact ⟨rfl, rfl, List.Perm.refl _, rfl, rfl, rfl, rfl⟩
  | cons hd rest ih =>
    intro s hsub
    have hhd : hd ∈ s.readyPriority := hsub hd (List.mem_cons_self hd rest)
    have hperm := agingStep_readyPriority_perm cfg s hd hhd
    have hsub' : ∀ t ∈ rest, t ∈ (agingStep cfg s hd).readyPriority := by
      intro t htr
      exact hperm.mem_iff.mpr (hsub t (List.mem_cons_of_mem hd htr))
    have hstep : agingBoost cfg s (hd :: rest) = agingBoost cfg (agingStep cfg s hd) rest := rfl
    obtain ⟨e1, e2, e3, e4, e5, e6, e7⟩ := ih (agingStep cfg s hd) hsub'
    rw [hstep]
    exact ⟨e1.trans (agingStep_readySJF cfg s hd),
      e2.trans (agingStep_readyRR cfg s hd),
      e3.trans hperm,
      e4.trans (agingStep_totalTicks cfg s hd),
      e5.trans (agingStep_currentThread cfg s hd),
      e6.trans (agingStep_toBeDestroyed cfg s hd),
      e7.trans (agingStep_intLevel cfg s hd)⟩

/-! ## Sortedness of the Priority queue -/

theorem sortedByPriority_congr (m m' : ThreadId → ThreadData) (l : List ThreadId)
    (h : ∀ t ∈ l, (m' t).priority = (m t).priority)
    (hs : sortedByPriority m l) : sortedByPriority m' l := by
  unfold sortedByPriority at *
  induction l with
  | nil => exact List.Pairwise.nil
  | cons x xs ih =>
    rcases List.pairwise_cons.mp hs with ⟨hx, hxs⟩
    refine List.pairwise_cons.mpr ⟨?_, ?_⟩
    · intro b hb
      rw [h b (List.mem_cons_of_mem x hb), h x (List.mem_cons_self x xs)]
      exact hx b hb
    · exact ih (fun t ht => h t (List.mem_cons_of_mem x ht)) hxs

theorem sortedInsert_sortedByPriority (m : ThreadId → ThreadData) (a : ThreadId) :
    ∀ l : List ThreadId, sortedByPriority m l →
    sortedByPriority m (sortedInsert (compare_by_priority m) a l) := by
  intro l
  induction l with
  | nil =>
    intro _
    simp [sortedInsert, sortedByPriority]
  | cons x xs ih =>
    intro hs
    rcases List.pairwise_cons.mp hs with ⟨hx, hxs⟩
    by_cases hlt : compare_by_priority m a x
    · unfold sortedInsert
      rw [if_pos hlt]
      have hax : (m x).priority ≤ (m a).priority :=
        le_of_lt (by simpa [compare_by_priority] using hlt)
      refine List.pairwise_cons.mpr ⟨?_, hs⟩
      intro b hb
      rcases List.mem_cons.mp hb with rfl | hb
      · exact hax
      · exact le_trans (hx b hb) hax
    · unfold sortedInsert
      rw [if_neg (by simpa using hlt)]
      have hxa : (m a).priority ≤ (m x).priority := by
        simp only [compare_by_priority, decide_eq_true_eq] at hlt
        exact not_lt.mp hlt
      refine List.pairwise_cons.mpr ⟨?_, ih hxs⟩
      intro b hb
      rcases (mem_sortedInsert (compare_by_priority m) a b xs).mp hb with rfl | hb
      · exact hxa
      · exact hx b hb

theorem agingStep_sorted (cfg : Config) (st : SchedState) (tid : ThreadId)
    (hmem : tid ∈ st.readyPriority) (hnd : st.readyPriority.Nodup)
    (hs : sortedByPriority st.threads st.readyPriority) :
    sortedByPriority (agingStep cfg st tid).threads (agingStep cfg st tid).readyPriority := by
  unfold agingStep
  by_cases hc : cfg.AGING_TICKS ≤ (st.totalTicks : Int) - ((st.threads tid).startReadyTime : Int)
  · rw [if_pos hc]
    apply sortedInsert_sortedByPriority
    have herase : sortedByPriority st.threads (st.readyPriority.erase tid) :=
      List.Pairwise.sublist (List.erase_sublist tid st.readyPriority) hs
    apply sortedByPriority_congr st.threads _ _ _ herase
    intro t ht
    have hne : t ≠ tid := by
      intro h
      subst h
      exact (List.Nodup.not_mem_erase hnd) ht
    rw [setThread_threads, if_neg hne]
  · rw [if_neg hc]
    exact hs

theorem agingBoost_sorted (cfg : Config) :
    ∀ (snap : List ThreadId) (s : SchedState), (∀ t ∈ snap, t ∈ s.readyPriority) →
    s.readyPriority.Nodup → sortedByPriority s.threads s.readyPriority →
    sortedByPriority (agingBoost cfg s snap).threads (agingBoost cfg s snap).readyPriority := by
  intro snap
  induction snap with
  | nil => intro s _ _ hs; exact hs
  | cons hd rest ih =>
    intro s hsub hnd hs
    have hhd : hd ∈ s.readyPriority := hsub hd (List.mem_cons_self hd rest)
    have hperm := agingStep_readyPriority_perm cfg s hd hhd
    have hsub' : ∀ t ∈ rest, t ∈ (agingStep cfg s hd).readyPriority := by
      intro t htr
      exact hperm.mem_iff.mpr (hsub t (List.mem_cons_of_mem hd htr))
    have hnd' : (agingStep cfg s hd).readyPriority.Nodup := hperm.nodup_iff.mpr hnd
    exact ih (agingStep cfg s hd) hsub' hnd' (agingStep_sorted cfg s hd hhd hnd hs)

/-! ## The requalification passes -/

theorem nodup_readyPriority (s : SchedState) (hN : (allQueues s).Nodup) :
    s.readyPriority.Nodup := by
  unfold allQueues at hN
  exact ((List.nodup_append.mp hN).2).1

theorem nodup_not_mem_of_pri (s : SchedState) (hN : (allQueues s).Nodup) :
    ∀ t ∈ s.readyPriority, t ∉ s.readySJF ∧ t ∉ s.readyRR := by
  unfold allQueues at hN
  intro t ht
  rcases List.nodup_append.mp hN with ⟨h12, _, hdisj⟩
  have hnot : t ∉ s.readySJF ++ s.readyRR := fun hmem => hdisj hmem ht
  rw [List.mem_append] at hnot
  exact ⟨fun h => hnot (Or.inl h), fun h => hnot (Or.inr h)⟩

theorem nodup_not_pri_of_sjf (s : SchedState) (hN : (allQueues s).Nodup) :
    ∀ t ∈ s.readySJF, t ∉ s.readyPriority := by
  intro t ht hpri
  exact (nodup_not_mem_of_pri s hN t hpri).1 ht

theorem nodup_not_pri_of_rr (s : SchedState) (hN : (allQueues s).Nodup) :
    ∀ t ∈ s.readyRR, t ∉ s.readyPriority := by
  intro t ht hpri
  exact (nodup_not_mem_of_pri s hN t hpri).2 ht

theorem movePassSJF_noop (cfg : Config) :
    ∀ (snap : List ThreadId) (s : SchedState),
    (∀ t ∈ snap, ¬ (s.threads t).priority < cfg.SJF_SCHD_THRESHHOLD) →
    snap.foldl (movePassSJFStep cfg) s = s := by
  intro snap
  induction snap with
  | nil => intro s _; rfl
  | cons hd rest ih =>
    intro s hc
    have hstep : movePassSJFStep cfg s hd = s := by
      unfold movePassSJFStep
      rw [if_neg (hc hd (List.mem_cons_self hd rest))]
    show rest.foldl (movePassSJFStep cfg) (movePassSJFStep cfg s hd) = s
    rw [hstep]
    exact ih s (fun t ht => hc t (List.mem_cons_of_mem hd ht))

theorem movePassRR_noop (cfg : Config) :
    ∀ (snap : List ThreadId) (s : SchedState),
    (∀ t ∈ snap, ¬ ((s.threads t).priority < cfg.PRI_SCHD_THRESHHOLD
        ∨ cfg.SJF_SCHD_THRESHHOLD ≤ (s.threads t).priority)) →
    snap.foldl (movePassRRStep cfg) s = s := by
  intro snap
  induction snap with
  | nil => intro s _; rfl
  | cons hd rest ih =>
    intro s hc
    have hstep : movePassRRStep cfg s hd = s := by
      unfold movePassRRStep
      rw [if_neg (hc hd (List.mem_cons_self hd rest))]
    show rest.foldl (movePassRRStep cfg) (movePassRRStep cfg s hd) = s
    rw [hstep]
    exact ih s (fun t ht => hc t (List.mem_cons_of_mem hd ht))

/-- What one full Priority pass of `processMoving` guarantees, relating
the state `p` at the start of the pass, the snapshot `snap` its iterator
walks, and the state `q` it produces. -/
structure MovePriSpec (cfg : Config) (p q : SchedState) (snap : List ThreadId) : Prop where
  nodup : (allQueues q).Nodup
  statuses : ∀ t ∈ allQueues q, (q.threads t).status = ThreadStatus.READY
  sjfOK : ∀ t ∈ q.readySJF, cfg.SJF_SCHD_THRESHHOLD ≤ (q.threads t).priority
  rrOK : ∀ t ∈ q.readyRR, cfg.PRI_SCHD_THRESHHOLD ≤ (q.threads t).priority ∧
      (q.threads t).priority < cfg.SJF_SCHD_THRESHHOLD
  priEq : ∀ t, (q.threads t).priority = (p.threads t).priority
  allPerm : List.Perm (allQueues q) (allQueues p)
  sjfMono : ∀ t ∈ p.readySJF, t ∈ q.readySJF
  rrMono : ∀ t ∈ p.readyRR, t ∈ q.readyRR
  priStay : ∀ t ∈ p.readyPriority, (p.threads t).priority < cfg.PRI_SCHD_THRESHHOLD →
      t ∈ q.readyPriority
  movedSJF : ∀ t ∈ snap, cfg.PRI_SCHD_THRESHHOLD ≤ (p.threads t).priority →
      cfg.SJF_SCHD_THRESHHOLD ≤ (p.threads t).priority → t ∈ q.readySJF
  movedRR : ∀ t ∈ snap, cfg.PRI_SCHD_THRESHHOLD ≤ (p.threads t).priority →
      (p.threads t).priority < cfg.SJF_SCHD_THRESHHOLD → t ∈ q.readyRR
  movedOut : ∀ t ∈ snap, cfg.PRI_SCHD_THRESHHOLD ≤ (p.threads t).priority →
      t ∉ q.readyPriority
  priSub : q.readyPriority.Sublist p.readyPriority
  dataUntouched : ∀ t, t ∉ snap → q.threads t = p.threads t
  dataLow : ∀ t, (p.threads t).priority < cfg.PRI_SCHD_THRESHHOLD → q.threads t = p.threads t
  dataMoved : ∀ t, q.threads t = p.threads t ∨ q.threads t = readiedData p t
  ticksEq : q.totalTicks = p.totalTicks
  curEq : q.currentThread = p.currentThread
  tbdEq : q.toBeDestroyed = p.toBeDestroyed
  intEq : q.intLevel = p.intLevel

theorem readyToRun_priority_eq (cfg : Config) (s : SchedState) (tid t : ThreadId) :
    ((readyToRun cfg s tid).threads t).priority = (s.threads t).priority := by
  rw [readyToRun_threads]
  by_cases het : t = tid
  · subst het
    rw [if_pos rfl, readiedData_priority]
  · rw [if_neg het]

theorem readyToRun_statuses (cfg : Config) (s : SchedState) (tid : ThreadId)
    (hst : ∀ t ∈ allQueues s, (s.threads t).status = ThreadStatus.READY) :
    ∀ t ∈ allQueues (readyToRun cfg s tid),
      ((readyToRun cfg s tid).threads t).status = ThreadStatus.READY := by
  intro t ht
  rw [readyToRun_threads]
  by_cases het : t = tid
  · subst het
    rw [if_pos rfl, readiedData_status]
  · rw [if_neg het]
    have ht' : t ∈ allQueues s := by
      have := (readyToRun_allQueues_perm cfg s tid).mem_iff.mp ht
      rcases List.mem_cons.mp this with h | h
      · exact absurd h het
      · exact h
    exact hst t ht'

theorem readyToRun_sjfOK (cfg : Config) (s : SchedState) (tid : ThreadId)
    (hnoS : tid ∉ s.readySJF)
    (hS : ∀ t ∈ s.readySJF, cfg.SJF_SCHD_THRESHHOLD ≤ (s.threads t).priority) :
    ∀ t ∈ (readyToRun cfg s tid).readySJF,
      cfg.SJF_SCHD_THRESHHOLD ≤ ((readyToRun cfg s tid).threads t).priority := by
  intro t ht
  rw [readyToRun_priority_eq]
  rcases readyToRun_mem_sjf_elim cfg s tid t ht with ⟨rfl, h1⟩ | ht'
  · exact h1
  · exact hS t ht'

theorem readyToRun_rrOK (cfg : Config) (s : SchedState) (tid : ThreadId)
    (hnoR : tid ∉ s.readyRR)
    (hR : ∀ t ∈ s.readyRR, cfg.PRI_SCHD_THRESHHOLD ≤ (s.threads t).priority ∧
        (s.threads t).priority < cfg.SJF_SCHD_THRESHHOLD) :
    ∀ t ∈ (readyToRun cfg s tid).readyRR,
      cfg.PRI_SCHD_THRESHHOLD ≤ ((readyToRun cfg s tid).threads t).priority ∧
        ((readyToRun cfg s tid).threads t).priority < cfg.SJF_SCHD_THRESHHOLD := by
  intro t ht
  rw [readyToRun_priority_eq]
  rcases readyToRun_mem_rr_elim cfg s tid t ht with ⟨rfl, h1, h2⟩ | ht'
  · exact ⟨h2, lt_of_not_le h1⟩
  · exact hR t ht'

theorem readyToRun_mem_sjf_intro (cfg : Config) (s : SchedState) (tid : ThreadId)
    (h1 : cfg.SJF_SCHD_THRESHHOLD ≤ (s.threads tid).priority) :
    tid ∈ (readyToRun cfg s tid).readySJF := by
  rw [(readyToRun_readySJF_perm cfg s tid).mem_iff, if_pos h1]
  exact List.mem_cons_self tid _

theorem readyToRun_mem_rr_intro (cfg : Config) (s : SchedState) (tid : ThreadId)
    (h1 : ¬ cfg.SJF_SCHD_THRESHHOLD ≤ (s.threads tid).priority)
    (h2 : cfg.PRI_SCHD_THRESHHOLD ≤ (s.threads tid).priority) :
    tid ∈ (readyToRun cfg s tid).readyRR := by
  rw [readyToRun_readyRR_eq, if_pos ⟨h1, h2⟩]
  exact List.mem_append_right _ (List.mem_singleton.mpr rfl)

/-- When the admitted thread is at or above the middle band, the
Priority queue is untouched by `ReadyToRun`. -/
theorem readyToRun_readyPriority_eq_of_mid (cfg : Config) (s : SchedState) (tid : ThreadId)
    (h2 : cfg.PRI_SCHD_THRESHHOLD ≤ (s.threads tid).priority) :
    (readyToRun cfg s tid).readyPriority = s.readyPriority := by
  by_cases h1 : cfg.SJF_SCHD_THRESHHOLD ≤ (s.threads tid).priority
  · rw [readyToRun_eq_sjf cfg s tid h1]
    rfl
  · rw [readyToRun_eq_rr cfg s tid h1 h2]
    rfl

theorem movePassPriStep_stay (cfg : Config) (p : SchedState) (hd : ThreadId)
    (h : ¬ cfg.PRI_SCHD_THRESHHOLD ≤ (p.threads hd).priority) :
    movePassPriStep cfg p hd = p := by
  unfold movePassPriStep
  rw [if_neg h]

theorem movePassPriStep_moved (cfg : Config) (p : SchedState) (hd : ThreadId)
    (h : cfg.PRI_SCHD_THRESHHOLD ≤ (p.threads hd).priority) :
    movePassPriStep cfg p hd =
      readyToRun cfg { p with readyPriority := p.readyPriority.erase hd } hd := by
  unfold movePassPriStep
  rw [if_pos h]

/-- Removing a thread from the Priority queue (the state on which the
Priority pass re-admits it). -/
def eraseFromPri (p : SchedState) (hd : ThreadId) : SchedState :=
  { p with readyPriority := p.readyPriority.erase hd }

theorem movePassPriStep_moved_eq (cfg : Config) (p : SchedState) (hd : ThreadId)
    (h : cfg.PRI_SCHD_THRESHHOLD ≤ (p.threads hd).priority) :
    movePassPriStep cfg p hd = readyToRun cfg (eraseFromPri p hd) hd :=
  movePassPriStep_moved cfg p hd h

/-- The full Priority pass of `processMoving`, specified.  `p` is the
state when the pass starts and `snap` the iterator's snapshot of the
Priority queue; the SJF and RR queues are assumed band-correct (the two
earlier passes leave them so). -/
theorem movePassPri_spec (cfg : Config) :
    ∀ (snap : List ThreadId) (p : SchedState),
    (allQueues p).Nodup →
    (∀ t ∈ allQueues p, (p.threads t).status = ThreadStatus.READY) →
    (∀ t ∈ p.readySJF, cfg.SJF_SCHD_THRESHHOLD ≤ (p.threads t).priority) →
    (∀ t ∈ p.readyRR, cfg.PRI_SCHD_THRESHHOLD ≤ (p.threads t).priority ∧
        (p.threads t).priority < cfg.SJF_SCHD_THRESHHOLD) →
    snap.Nodup → (∀ t ∈ snap, t ∈ p.readyPriority) →
    MovePriSpec cfg p (snap.foldl (movePassPriStep cfg) p) snap := by
  intro snap
  induction snap with
  | nil =>
    intro p hN hst hS hR _ _
    exact { nodup := hN, statuses := hst, sjfOK := hS, rrOK := hR,
            priEq := fun _ => rfl, allPerm := List.Perm.refl _,
            sjfMono := fun _ ht => ht, rrMono := fun _ ht => ht,
            priStay := fun _ ht _ => ht,
            movedSJF := fun t ht => absurd ht (List.not_mem_nil t),
            movedRR := fun t ht => absurd ht (List.not_mem_nil t),
            movedOut := fun t ht => absurd ht (List.not_mem_nil t),
            priSub := List.Sublist.refl _,
            dataUntouched := fun _ _ => rfl, dataLow := fun _ _ => rfl,
            dataMoved := fun _ => Or.inl rfl,
            ticksEq := rfl, curEq := rfl, tbdEq := rfl, intEq := rfl }
  | cons hd rest ih =>
    intro p hN hst hS hR hnd hsub
    have hhd_mem : hd ∈ p.readyPriority := hsub hd (List.mem_cons_self hd rest)
    have hhd_nrest : hd ∉ rest := (List.nodup_cons.mp hnd).1
    have hrest_nd : rest.Nodup := (List.nodup_cons.mp hnd).2
    have hpriN : p.readyPriority.Nodup := nodup_readyPriority p hN
    show MovePriSpec cfg p (rest.foldl (movePassPriStep cfg) (movePassPriStep cfg p hd))
      (hd :: rest)
    by_cases hband : cfg.PRI_SCHD_THRESHHOLD ≤ (p.threads hd).priority
    · -- the head is moved out of the Priority queue and re-admitted
      rw [movePassPriStep_moved_eq cfg p hd hband]
      have hnSR := nodup_not_mem_of_pri p hN hd hhd_mem
      have herase : hd ∉ (eraseFromPri p hd).readyPriority :=
        List.Nodup.not_mem_erase hpriN
      have hno' : hd ∉ allQueues (eraseFromPri p hd) := by
        rw [mem_allQueues_iff]
        push_neg
        exact ⟨hnSR.1, hnSR.2, herase⟩
      have hsubl : (allQueues (eraseFromPri p hd)).Sublist (allQueues p) := by
        unfold allQueues eraseFromPri
        exact List.Sublist.append_left (List.erase_sublist hd p.readyPriority) _
      have hN' : (allQueues (eraseFromPri p hd)).Nodup := List.Nodup.sublist hsubl hN
      have hst' : ∀ t ∈ allQueues (eraseFromPri p hd),
          ((eraseFromPri p hd).threads t).status = ThreadStatus.READY :=
        fun t ht => hst t (hsubl.mem ht)
      have hS' : ∀ t ∈ (eraseFromPri p hd).readySJF,
          cfg.SJF_SCHD_THRESHHOLD ≤ ((eraseFromPri p hd).threads t).priority := hS
      have hR' : ∀ t ∈ (eraseFromPri p hd).readyRR,
          cfg.PRI_SCHD_THRESHHOLD ≤ ((eraseFromPri p hd).threads t).priority ∧
            ((eraseFromPri p hd).threads t).priority < cfg.SJF_SCHD_THRESHHOLD := hR
      have e_pri : (readyToRun cfg (eraseFromPri p hd) hd).readyPriority
          = p.readyPriority.erase hd :=
        readyToRun_readyPriority_eq_of_mid cfg (eraseFromPri p hd) hd hband
      have e_pr_eq : ∀ t, ((readyToRun cfg (eraseFromPri p hd) hd).threads t).priority
          = (p.threads t).priority :=
        fun t => readyToRun_priority_eq cfg (eraseFromPri p hd) hd t
      have e_ticks : (readyToRun cfg (eraseFromPri p hd) hd).totalTicks = p.totalTicks :=
        readyToRun_totalTicks cfg (eraseFromPri p hd) hd
      have e_thr : ∀ t, t ≠ hd →
          (readyToRun cfg (eraseFromPri p hd) hd).threads t = p.threads t := by
        intro t hne
        rw [readyToRun_threads, if_neg hne]
        rfl
      have e_thr_hd : (readyToRun cfg (eraseFromPri p hd) hd).threads hd
          = readiedData p hd := by
        rw [readyToRun_threads, if_pos rfl]
        rfl
      have e_perm : List.Perm (allQueues (readyToRun cfg (eraseFromPri p hd) hd))
          (allQueues p) := by
        refine (readyToRun_allQueues_perm cfg (eraseFromPri p hd) hd).trans ?_
        have hmemall : hd ∈ allQueues p := (mem_allQueues_iff p hd).mpr (Or.inr (Or.inr hhd_mem))
        have herase_eq : (allQueues p).erase hd = allQueues (eraseFromPri p hd) := by
          unfold allQueues eraseFromPri
          exact List.erase_append_right _ (fun hmem => by
            rw [List.mem_append] at hmem
            rcases hmem with h | h
            · exact hnSR.1 h
            · exact hnSR.2 h)
        rw [← herase_eq]
        exact (List.perm_cons_erase hmemall).symm
      have hsub' : ∀ t ∈ rest, t ∈ (readyToRun cfg (eraseFromPri p hd) hd).readyPriority := by
        intro t htr
        rw [e_pri]
        have hne : t ≠ hd := fun h => hhd_nrest (h ▸ htr)
        exact (List.mem_erase_of_ne hne).mpr (hsub t (List.mem_cons_of_mem hd htr))
      have IH := ih (readyToRun cfg (eraseFromPri p hd) hd)
        (readyToRun_nodup cfg (eraseFromPri p hd) hd hno' hN')
        (readyToRun_statuses cfg (eraseFromPri p hd) hd hst')
        (readyToRun_sjfOK cfg (eraseFromPri p hd) hd hnSR.1 hS')
        (readyToRun_rrOK cfg (eraseFromPri p hd) hd hnSR.2 hR')
        hrest_nd hsub'
      have hsjf_step : ∀ t ∈ p.readySJF,
          t ∈ (readyToRun cfg (eraseFromPri p hd) hd).readySJF :=
        fun t ht => readyToRun_mem_sjf_mono cfg (eraseFromPri p hd) hd t ht
      have hrr_step : ∀ t ∈ p.readyRR,
          t ∈ (readyToRun cfg (eraseFromPri p hd) hd).readyRR :=
        fun t ht => readyToRun_mem_rr_mono cfg (eraseFromPri p hd) hd t ht
      refine { nodup := IH.nodup, statuses := IH.statuses, sjfOK := IH.sjfOK,
               rrOK := IH.rrOK, priEq := ?_, allPerm := ?_, sjfMono := ?_, rrMono := ?_,
               priStay := ?_, movedSJF := ?_, movedRR := ?_, movedOut := ?_, priSub := ?_,
               dataUntouched := ?_, dataLow := ?_, dataMoved := ?_, ticksEq := ?_,
               curEq := ?_, tbdEq := ?_, intEq := ?_ }
      · exact fun t => (IH.priEq t).trans (e_pr_eq t)
      · exact IH.allPerm.trans e_perm
      · exact fun t ht => IH.sjfMono t (hsjf_step t ht)
      · exact fun t ht => IH.rrMono t (hrr_step t ht)
      · intro t ht hlow
        have hne : t ≠ hd := fun h => absurd (h ▸ hlow) (not_lt.mpr hband)
        refine IH.priStay t ?_ ?_
        · rw [e_pri]
          exact (List.mem_erase_of_ne hne).mpr ht
        · rw [e_pr_eq t]
          exact hlow
      · intro t ht hmid hhigh
        rcases List.mem_cons.mp ht with heq | htr
        · rw [heq] at hhigh ⊢
          exact IH.sjfMono hd (readyToRun_mem_sjf_intro cfg (eraseFromPri p hd) hd hhigh)
        · refine IH.movedSJF t htr ?_ ?_
          · rw [e_pr_eq t]; exact hmid
          · rw [e_pr_eq t]; exact hhigh
      · intro t ht hmid hlowS
        rcases List.mem_cons.mp ht with heq | htr
        · rw [heq] at hmid hlowS ⊢
          exact IH.rrMono hd
            (readyToRun_mem_rr_intro cfg (eraseFromPri p hd) hd (not_le.mpr hlowS) hmid)
        · refine IH.movedRR t htr ?_ ?_
          · rw [e_pr_eq t]; exact hmid
          · rw [e_pr_eq t]; exact hlowS
      · intro t ht hmid hq
        rcases List.mem_cons.mp ht with heq | htr
        · rw [heq] at hq
          have hmem1 : hd ∈ (readyToRun cfg (eraseFromPri p hd) hd).readyPriority :=
            IH.priSub.mem hq
          rw [e_pri] at hmem1
          exact (List.Nodup.not_mem_erase hpriN) hmem1
        · refine IH.movedOut t htr ?_ hq
          rw [e_pr_eq t]
          exact hmid
      · refine IH.priSub.trans ?_
        rw [e_pri]
        exact List.erase_sublist hd p.readyPriority
      · intro t htn
        have hne : t ≠ hd := fun h => htn (h ▸ List.mem_cons_self hd rest)
        have htr : t ∉ rest := fun h => htn (List.mem_cons_of_mem hd h)
        rw [IH.dataUntouched t htr]
        exact e_thr t hne
      · intro t hlow
        have hne : t ≠ hd := fun h => absurd (h ▸ hlow) (not_lt.mpr hband)
        have hlow' : ((readyToRun cfg (eraseFromPri p hd) hd).threads t).priority
            < cfg.PRI_SCHD_THRESHHOLD := by
          rw [e_pr_eq t]; exact hlow
        rw [IH.dataLow t hlow']
        exact e_thr t hne
      · intro t
        by_cases hne : t = hd
        · subst hne
          rcases IH.dataMoved t with h | h
          · rw [h, e_thr_hd]
            exact Or.inr rfl
          · rw [h]
            right
            unfold readiedData
            rw [e_thr_hd, e_ticks]
            rfl
        · rcases IH.dataMoved t with h | h
          · rw [h, e_thr t hne]
            exact Or.inl rfl
          · rw [h]
            right
            unfold readiedData
            rw [e_thr t hne, e_ticks]
      · exact IH.ticksEq.trans e_ticks
      · exact IH.curEq.trans (readyToRun_currentThread cfg (eraseFromPri p hd) hd)
      · exact IH.tbdEq.trans (readyToRun_toBeDestroyed cfg (eraseFromPri p hd) hd)
      · exact IH.intEq.trans (readyToRun_intLevel cfg (eraseFromPri p hd) hd)
    · -- the head stays: its priority is still below the middle band
      rw [movePassPriStep_stay cfg p hd hband]
      have IH := ih p hN hst hS hR hrest_nd
        (fun t ht => hsub t (List.mem_cons_of_mem hd ht))
      refine { nodup := IH.nodup, statuses := IH.statuses, sjfOK := IH.sjfOK,
               rrOK := IH.rrOK, priEq := IH.priEq, allPerm := IH.allPerm,
               sjfMono := IH.sjfMono, rrMono := IH.rrMono, priStay := IH.priStay,
               priSub := IH.priSub, dataUntouched := ?_, dataLow := IH.dataLow,
               dataMoved := IH.dataMoved, ticksEq := IH.ticksEq, curEq := IH.curEq,
               tbdEq := IH.tbdEq, intEq := IH.intEq, movedSJF := ?_, movedRR := ?_,
               movedOut := ?_ }
      · intro t ht hmid hhigh
        rcases List.mem_cons.mp ht with heq | htr
        · rw [heq] at hmid
          exact absurd hmid hband
        · exact IH.movedSJF t htr hmid hhigh
      · intro t ht hmid hlowS
        rcases List.mem_cons.mp ht with heq | htr
        · rw [heq] at hmid
          exact absurd hmid hband
        · exact IH.movedRR t htr hmid hlowS
      · intro t ht hmid
        rcases List.mem_cons.mp ht with heq | htr
        · rw [heq] at hmid
          exact absurd hmid hband
        · exact IH.movedOut t htr hmid
      · intro t htn
        exact IH.dataUntouched t (fun h => htn (List.mem_cons_of_mem hd h))

@[simp] theorem agedData_status (cfg : Config) (now : Nat) (d : ThreadData) :
    (agedData cfg now d).status = d.status := by
  unfold agedData; split <;> rfl

@[simp] theorem agedData_burstTime (cfg : Config) (now : Nat) (d : ThreadData) :
    (agedData cfg now d).burstTime = d.burstTime := by
  unfold agedData; split <;> rfl

/-- When the two requalification passes over the SJF and RR snapshots
find nothing to move (their queues are band-correct), `processMoving`
is exactly the Priority pass, and the pass specification applies. -/
theorem processMoving_spec (cfg : Config) (p : SchedState)
    (hN : (allQueues p).Nodup)
    (hst : ∀ t ∈ allQueues p, (p.threads t).status = ThreadStatus.READY)
    (hS : ∀ t ∈ p.readySJF, cfg.SJF_SCHD_THRESHHOLD ≤ (p.threads t).priority)
    (hR : ∀ t ∈ p.readyRR, cfg.PRI_SCHD_THRESHHOLD ≤ (p.threads t).priority ∧
        (p.threads t).priority < cfg.SJF_SCHD_THRESHHOLD) :
    MovePriSpec cfg p (processMoving cfg p) p.readyPriority := by
  unfold processMoving
  show MovePriSpec cfg p
    (List.foldl (movePassPriStep cfg)
      (List.foldl (movePassRRStep cfg)
        (List.foldl (movePassSJFStep cfg) p p.readySJF) p.readyRR) p.readyPriority)
    p.readyPriority
  rw [movePassSJF_noop cfg p.readySJF p (fun t ht => not_lt.mpr (hS t ht))]
  rw [movePassRR_noop cfg p.readyRR p (fun t ht => by
    rcases hR t ht with ⟨h1, h2⟩
    rw [not_or]
    exact ⟨not_lt.mpr h1, not_le.mpr h2⟩)]
  exact movePassPri_spec cfg p.readyPriority p hN hst hS hR
    (nodup_readyPriority p hN) (fun t ht => ht)

/-- `aging` (boost pass plus requalification) preserves the partition
invariant. -/
theorem aging_Inv (cfg : Config) (s : SchedState) (hInv : Inv cfg s) :
    Inv cfg (aging cfg s) := by
  obtain ⟨hS, hR, hP, hN, hst⟩ := hInv
  unfold aging
  obtain ⟨e1, e2, e3, e4, e5, e6, e7⟩ :=
    agingBoost_queues cfg s.readyPriority s (fun t ht => ht)
  have hthr := agingBoost_threads cfg s.readyPriority s (nodup_readyPriority s hN)
  have hperm : List.Perm (allQueues (agingBoost cfg s s.readyPriority)) (allQueues s) := by
    unfold allQueues
    rw [e1, e2]
    exact e3.append_left (s.readySJF ++ s.readyRR)
  have hN_p : (allQueues (agingBoost cfg s s.readyPriority)).Nodup := hperm.nodup_iff.mpr hN
  have hst_p : ∀ t ∈ allQueues (agingBoost cfg s s.readyPriority),
      ((agingBoost cfg s s.readyPriority).threads t).status = ThreadStatus.READY := by
    intro t ht
    rw [hthr t]
    by_cases hmem : t ∈ s.readyPriority
    · rw [if_pos hmem, agedData_status]
      exact hst t (hperm.mem_iff.mp ht)
    · rw [if_neg hmem]
      exact hst t (hperm.mem_iff.mp ht)
  have hS_p : ∀ t ∈ (agingBoost cfg s s.readyPriority).readySJF,
      cfg.SJF_SCHD_THRESHHOLD ≤ ((agingBoost cfg s s.readyPriority).threads t).priority := by
    intro t ht
    rw [e1] at ht
    have hnp : t ∉ s.readyPriority := nodup_not_pri_of_sjf s hN t ht
    rw [hthr t, if_neg hnp]
    exact hS t ht
  have hR_p : ∀ t ∈ (agingBoost cfg s s.readyPriority).readyRR,
      cfg.PRI_SCHD_THRESHHOLD ≤ ((agingBoost cfg s s.readyPriority).threads t).priority ∧
        ((agingBoost cfg s s.readyPriority).threads t).priority
          < cfg.SJF_SCHD_THRESHHOLD := by
    intro t ht
    rw [e2] at ht
    have hnp : t ∉ s.readyPriority := nodup_not_pri_of_rr s hN t ht
    rw [hthr t, if_neg hnp]
    exact hR t ht
  have spec := processMoving_spec cfg (agingBoost cfg s s.readyPriority)
    hN_p hst_p hS_p hR_p
  refine ⟨spec.sjfOK, spec.rrOK, ?_, spec.nodup, spec.statuses⟩
  intro t ht
  have hmem_p : t ∈ (agingBoost cfg s s.readyPriority).readyPriority := spec.priSub.mem ht
  by_cases hmid : cfg.PRI_SCHD_THRESHHOLD ≤
      ((agingBoost cfg s s.readyPriority).threads t).priority
  · exact absurd ht (spec.movedOut t hmem_p hmid)
  · rw [spec.priEq t]
    exact lt_of_not_le hmid

/-! ## Selection and dispatch -/

theorem Inv_pop_sjf (cfg : Config) (sa : SchedState) (t : ThreadId) (rest : List ThreadId)
    (h : sa.readySJF = t :: rest) (hI : Inv cfg sa) : Inv cfg { sa with readySJF := rest } := by
  obtain ⟨hS, hR, hP, hN, hst⟩ := hI
  have hsub : ∀ x ∈ allQueues { sa with readySJF := rest }, x ∈ allQueues sa := by
    intro x hx
    rw [mem_allQueues_iff] at hx ⊢
    rcases hx with hx | hx
    · exact Or.inl (by rw [h]; exact List.mem_cons_of_mem t hx)
    · exact Or.inr hx
  refine ⟨?_, hR, hP, ?_, ?_⟩
  · intro x hx
    exact hS x (by rw [h]; exact List.mem_cons_of_mem t hx)
  · have : allQueues sa = t :: allQueues { sa with readySJF := rest } := by
      unfold allQueues
      rw [h]
      rfl
    rw [this] at hN
    exact List.Nodup.of_cons hN
  · intro x hx
    exact hst x (hsub x hx)

theorem Inv_pop_rr (cfg : Config) (sa : SchedState) (t : ThreadId) (rest : List ThreadId)
    (hS0 : sa.readySJF = []) (h : sa.readyRR = t :: rest) (hI : Inv cfg sa) :
    Inv cfg { sa with readyRR := rest } := by
  obtain ⟨hS, hR, hP, hN, hst⟩ := hI
  have hsub : ∀ x ∈ allQueues { sa with readyRR := rest }, x ∈ allQueues sa := by
    intro x hx
    rw [mem_allQueues_iff] at hx ⊢
    rcases hx with hx | hx | hx
    · exact Or.inl hx
    · exact Or.inr (Or.inl (by rw [h]; exact List.mem_cons_of_mem t hx))
    · exact Or.inr (Or.inr hx)
  refine ⟨hS, ?_, hP, ?_, ?_⟩
  · intro x hx
    exact hR x (by rw [h]; exact List.mem_cons_of_mem t hx)
  · have : allQueues sa = t :: allQueues { sa with readyRR := rest } := by
      unfold allQueues
      rw [h, hS0]
      rfl
    rw [this] at hN
    exact List.Nodup.of_cons hN
  · intro x hx
    exact hst x (hsub x hx)

theorem Inv_pop_pri (cfg : Config) (sa : SchedState) (t : ThreadId) (rest : List ThreadId)
    (hS0 : sa.readySJF = []) (hR0 : sa.readyRR = []) (h : sa.readyPriority = t :: rest)
    (hI : Inv cfg sa) : Inv cfg { sa with readyPriority := rest } := by
  obtain ⟨hS, hR, hP, hN, hst⟩ := hI
  have hsub : ∀ x ∈ allQueues { sa with readyPriority := rest }, x ∈ allQueues sa := by
    intro x hx
    rw [mem_allQueues_iff] at hx ⊢
    rcases hx with hx | hx | hx
    · exact Or.inl hx
    · exact Or.inr (Or.inl hx)
    · exact Or.inr (Or.inr (by rw [h]; exact List.mem_cons_of_mem t hx))
  refine ⟨hS, hR, ?_, ?_, ?_⟩
  · intro x hx
    exact hP x (by rw [h]; exact List.mem_cons_of_mem t hx)
  · have : allQueues sa = t :: allQueues { sa with readyPriority := rest } := by
      unfold allQueues
      rw [h, hS0, hR0]
      rfl
    rw [this] at hN
    exact List.Nodup.of_cons hN
  · intro x hx
    exact hst x (hsub x hx)

/-- `FindNextToRun` preserves the partition invariant on the queues it
leaves behind. -/
theorem findNextToRun_Inv (cfg : Config) (s : SchedState) (hInv : Inv cfg s) :
    Inv cfg (findNextToRun cfg s).2 := by
  have hIa : Inv cfg (aging cfg s) := aging_Inv cfg s hInv
  unfold findNextToRun
  rcases hsjf : (aging cfg s).readySJF with _ | ⟨t, rest⟩
  · rcases hrr : (aging cfg s).readyRR with _ | ⟨t, rest⟩
    · rcases hpri : (aging cfg s).readyPriority with _ | ⟨t, rest⟩
      · simp only [hsjf, hrr, hpri]
        exact hIa
      · simp only [hsjf, hrr, hpri]
        have h1 := Inv_pop_pri cfg (aging cfg s) t rest hsjf hrr hpri hIa
        simp only [hsjf, hrr] at h1
        exact h1
    · simp only [hsjf, hrr]
      have h1 := Inv_pop_rr cfg (aging cfg s) t rest hsjf hrr hIa
      simp only [hsjf] at h1
      exact h1
  · simp only [hsjf]
    exact Inv_pop_sjf cfg (aging cfg s) t rest hsjf hIa

/-- The no-op fast exit of `Run`: dispatching to the thread that is
already current returns immediately, mutating nothing and not invoking
the context switch, whatever the `finishing` flag and the interrupt
level are. -/
theorem run_same (cfg : Config) (s : SchedState) (fin : Bool) :
    run cfg s s.currentThread fin = some (s, false) := by
  unfold run
  rw [if_pos rfl]

theorem run_int_fail (cfg : Config) (s : SchedState) (next : ThreadId) (fin : Bool)
    (hne : ¬ s.currentThread = next) (hint : ¬ s.intLevel = IntStatus.IntOff) :
    run cfg s next fin = none := by
  unfold run
  rw [if_neg hne, if_pos hint]

theorem run_tbd_fail (cfg : Config) (s : SchedState) (next : ThreadId) (fin : Bool)
    (hne : ¬ s.currentThread = next) (hint : s.intLevel = IntStatus.IntOff)
    (htbd : fin = true ∧ ¬ s.toBeDestroyed = none) :
    run cfg s next fin = none := by
  unfold run
  rw [if_neg hne, if_neg (by simp [hint]), if_pos htbd]

/-- The successful dispatch path of `Run`, up to the `SWITCH` call:
every field of the state it hands to the switch. -/
theorem run_ok (cfg : Config) (s : SchedState) (next : ThreadId) (fin : Bool)
    (hne : ¬ s.currentThread = next) (hint : s.intLevel = IntStatus.IntOff)
    (htbd : fin = true → s.toBeDestroyed = none) :
    ∃ s', run cfg s next fin = some (s', true) ∧
      s'.readySJF = s.readySJF ∧ s'.readyRR = s.readyRR ∧
      s'.readyPriority = s.readyPriority ∧
      s'.currentThread = next ∧ s'.totalTicks = s.totalTicks ∧ s'.intLevel = s.intLevel ∧
      s'.toBeDestroyed = (if fin then some s.currentThread else s.toBeDestroyed) ∧
      (∀ t, ¬ t = s.currentThread → ¬ t = next → s'.threads t = s.threads t) ∧
      s'.threads s.currentThread = { s.threads s.currentThread with burstTime :=
        (1 / 2 : ℚ) * ((((s.totalTicks : Int) -
            ((s.threads s.currentThread).startBurst : Int) : Int) : ℚ)
          + (s.threads s.currentThread).burstTime) } ∧
      s'.threads next
        = { s.threads next with status := ThreadStatus.RUNNING, startBurst := s.totalTicks } := by
  have hne' : ¬ next = s.currentThread := fun h => hne h.symm
  unfold run
  rw [if_neg hne, if_neg (by simp [hint]),
    if_neg (by rintro ⟨hf, hn⟩; exact hn (htbd hf))]
  refine ⟨_, rfl, ?_, ?_, ?_, ?_, ?_, ?_, ?_, ?_, ?_, ?_⟩
  · cases fin <;> rfl
  · cases fin <;> rfl
  · cases fin <;> rfl
  · cases fin <;> rfl
  · cases fin <;> rfl
  · cases fin <;> rfl
  · cases fin <;> rfl
  · intro t ht1 ht2
    cases fin <;> simp [SchedState.setThread, ht1, ht2]
  · cases fin <;> simp [SchedState.setThread, hne, hne']
  · cases fin <;> simp [SchedState.setThread, hne, hne']

/-- Uniform access to the result of `run`: dispatch preserves the
partition invariant, provided the incoming thread is not queued. -/
theorem run_Inv (cfg : Config) (s : SchedState) (next : ThreadId) (fin : Bool)
    (s' : SchedState) (b : Bool) (hno : next ∉ allQueues s)
    (hrun : run cfg s next fin = some (s', b)) (hInv : Inv cfg s) : Inv cfg s' := by
  by_cases hsame : s.currentThread = next
  · rw [← hsame, run_same cfg s fin] at hrun
    have : s = s' := congrArg Prod.fst (Option.some.inj hrun)
    exact this ▸ hInv
  · by_cases hint : s.intLevel = IntStatus.IntOff
    · by_cases htbd : fin = true ∧ ¬ s.toBeDestroyed = none
      · rw [run_tbd_fail cfg s next fin hsame hint htbd] at hrun
        exact absurd hrun (Option.noConfusion)
      · have htbd' : fin = true → s.toBeDestroyed = none := by
          intro hf
          by_contra hn
          exact htbd ⟨hf, hn⟩
        obtain ⟨s₀, hrun₀, eS, eR, eP, eCur, eT, eI, eTbd, eOther, eOld, eNext⟩ :=
          run_ok cfg s next fin hsame hint htbd'
        rw [hrun₀] at hrun
        have hs₀ : s₀ = s' := congrArg Prod.fst (Option.some.inj hrun)
        subst hs₀
        obtain ⟨hS, hR, hP, hN, hst⟩ := hInv
        have hthr_pri : ∀ t, t ∈ allQueues s →
            (s₀.threads t).priority = (s.threads t).priority := by
          intro t htq
          have htn : ¬ t = next := fun h => hno (h ▸ htq)
          by_cases hto : t = s.currentThread
          · rw [hto, eOld]
          · rw [eOther t hto htn]
        have hthr_st : ∀ t, t ∈ allQueues s →
            (s₀.threads t).status = (s.threads t).status := by
          intro t htq
          have htn : ¬ t = next := fun h => hno (h ▸ htq)
          by_cases hto : t = s.currentThread
          · rw [hto, eOld]
          · rw [eOther t hto htn]
        have hqall : allQueues s₀ = allQueues s := by
          unfold allQueues
          rw [eS, eR, eP]
        refine ⟨?_, ?_, ?_, ?_, ?_⟩
        · intro t ht
          rw [eS] at ht
          rw [hthr_pri t ((mem_allQueues_iff s t).mpr (Or.inl ht))]
          exact hS t ht
        · intro t ht
          rw [eR] at ht
          rw [hthr_pri t ((mem_allQueues_iff s t).mpr (Or.inr (Or.inl ht)))]
          exact hR t ht
        · intro t ht
          rw [eP] at ht
          rw [hthr_pri t ((mem_allQueues_iff s t).mpr (Or.inr (Or.inr ht)))]
          exact hP t ht
        · rw [hqall]
          exact hN
        · intro t ht
          rw [hqall] at ht
          rw [hthr_st t ht]
          exact hst t ht
    · rw [run_int_fail cfg s next fin hsame hint] at hrun
      exact absurd hrun (Option.noConfusion)

/-- Every reachable scheduler state satisfies the partition invariant. -/
theorem reachable_Inv (cfg : Config) (s : SchedState) (h : Reachable cfg s) : Inv cfg s := by
  induction h with
  | init threads cur ticks lvl =>
    refine ⟨?_, ?_, ?_, ?_, ?_⟩ <;> simp [allQueues]
  | tick s t _ ih =>
    obtain ⟨hS, hR, hP, hN, hst⟩ := ih
    exact ⟨hS, hR, hP, hN, hst⟩
  | enqueue s tid _ hno ih => exact readyToRun_Inv cfg s tid hno ih
  | select s _ ih => exact findNextToRun_Inv cfg s ih
  | dispatch s s' next fin b _ hno hrun ih => exact run_Inv cfg s next fin s' b hno hrun ih
  | destroy s _ ih =>
    obtain ⟨hS, hR, hP, hN, hst⟩ := ih
    exact ⟨hS, hR, hP, hN, hst⟩

/-- The relation between the state after the boost loop of `aging` and
the state `aging` returns, under the partition invariant at entry. -/
theorem aging_pass_spec (cfg : Config) (s : SchedState) (hInv : Inv cfg s) :
    MovePriSpec cfg (agingBoost cfg s s.readyPriority) (aging cfg s)
      (agingBoost cfg s s.readyPriority).readyPriority := by
  obtain ⟨hS, hR, hP, hN, hst⟩ := hInv
  obtain ⟨e1, e2, e3, e4, e5, e6, e7⟩ :=
    agingBoost_queues cfg s.readyPriority s (fun t ht => ht)
  have hthr := agingBoost_threads cfg s.readyPriority s (nodup_readyPriority s hN)
  have hperm : List.Perm (allQueues (agingBoost cfg s s.readyPriority)) (allQueues s) := by
    unfold allQueues
    rw [e1, e2]
    exact e3.append_left (s.readySJF ++ s.readyRR)
  have hN_p : (allQueues (agingBoost cfg s s.readyPriority)).Nodup := hperm.nodup_iff.mpr hN
  have hst_p : ∀ t ∈ allQueues (agingBoost cfg s s.readyPriority),
      ((agingBoost cfg s s.readyPriority).threads t).status = ThreadStatus.READY := by
    intro t ht
    rw [hthr t]
    by_cases hmem : t ∈ s.readyPriority
    · rw [if_pos hmem, agedData_status]
      exact hst t (hperm.mem_iff.mp ht)
    · rw [if_neg hmem]
      exact hst t (hperm.mem_iff.mp ht)
  have hS_p : ∀ t ∈ (agingBoost cfg s s.readyPriority).readySJF,
      cfg.SJF_SCHD_THRESHHOLD ≤ ((agingBoost cfg s s.readyPriority).threads t).priority := by
    intro t ht
    rw [e1] at ht
    have hnp : t ∉ s.readyPriority := nodup_not_pri_of_sjf s hN t ht
    rw [hthr t, if_neg hnp]
    exact hS t ht
  have hR_p : ∀ t ∈ (agingBoost cfg s s.readyPriority).readyRR,
      cfg.PRI_SCHD_THRESHHOLD ≤ ((agingBoost cfg s s.readyPriority).threads t).priority ∧
        ((agingBoost cfg s s.readyPriority).threads t).priority
          < cfg.SJF_SCHD_THRESHHOLD := by
    intro t ht
    rw [e2] at ht
    have hnp : t ∉ s.readyPriority := nodup_not_pri_of_rr s hN t ht
    rw [hthr t, if_neg hnp]
    exact hR t ht
  exact processMoving_spec cfg (agingBoost cfg s s.readyPriority) hN_p hst_p hS_p hR_p

/-! ## The claims -/

/-- C1.  In every reachable scheduler state, each thread held by a ready
queue occurs exactly once across the three queues, and the queue holding
it is the one its current priority selects against the two thresholds:
at or above `SJF_SCHD_THRESHHOLD` the SJF queue, between the thresholds
the Round-Robin queue, below `PRI_SCHD_THRESHHOLD` the Priority queue.
All scheduler operations, including the requalification pass
`processMoving` (modelled as the snapshot iteration its iterators
perform), preserve this partition. -/
theorem C1_partition_invariant (cfg : Config) (s : SchedState)
    (hcfg : cfg.PRI_SCHD_THRESHHOLD ≤ cfg.SJF_SCHD_THRESHHOLD)
    (h : Reachable cfg s) :
    ∀ tid ∈ allQueues s,
      (allQueues s).count tid = 1 ∧
      (cfg.SJF_SCHD_THRESHHOLD ≤ (s.threads tid).priority →
        tid ∈ s.readySJF ∧ tid ∉ s.readyRR ∧ tid ∉ s.readyPriority) ∧
      (cfg.PRI_SCHD_THRESHHOLD ≤ (s.threads tid).priority →
        (s.threads tid).priority < cfg.SJF_SCHD_THRESHHOLD →
        tid ∈ s.readyRR ∧ tid ∉ s.readySJF ∧ tid ∉ s.readyPriority) ∧
      ((s.threads tid).priority < cfg.PRI_SCHD_THRESHHOLD →
        tid ∈ s.readyPriority ∧ tid ∉ s.readySJF ∧ tid ∉ s.readyRR) := by
  obtain ⟨hS, hR, hP, hN, _⟩ := reachable_Inv cfg s h
  intro tid htid
  refine ⟨List.count_eq_one_of_mem hN htid, ?_, ?_, ?_⟩
  · intro hhigh
    have hnR : tid ∉ s.readyRR := fun hm => absurd hhigh (not_le.mpr (hR tid hm).2)
    have hnP : tid ∉ s.readyPriority :=
      fun hm => absurd (le_trans hcfg hhigh) (not_le.mpr (hP tid hm))
    have hmS : tid ∈ s.readySJF := by
      rcases (mem_allQueues_iff s tid).mp htid with hm | hm | hm
      · exact hm
      · exact absurd hm hnR
      · exact absurd hm hnP
    exact ⟨hmS, hnR, hnP⟩
  · intro hmid hlow
    have hnS : tid ∉ s.readySJF := fun hm => absurd hlow (not_lt.mpr (hS tid hm))
    have hnP : tid ∉ s.readyPriority := fun hm => absurd hmid (not_le.mpr (hP tid hm))
    have hmR : tid ∈ s.readyRR := by
      rcases (mem_allQueues_iff s tid).mp htid with hm | hm | hm
      · exact absurd hm hnS
      · exact hm
      · exact absurd hm hnP
    exact ⟨hmR, hnS, hnP⟩
  · intro hlow
    have hnS : tid ∉ s.readySJF :=
      fun hm => absurd (lt_of_lt_of_le hlow hcfg) (not_lt.mpr (hS tid hm))
    have hnR : tid ∉ s.readyRR := fun hm => absurd hlow (not_lt.mpr (hR tid hm).1)
    have hmP : tid ∈ s.readyPriority := by
      rcases (mem_allQueues_iff s tid).mp htid with hm | hm | hm
      · exact absurd hm hnS
      · exact absurd hm hnR
      · exact hm
    exact ⟨hmP, hnS, hnR⟩

/-- A concrete configuration standing in for the constants of the
missing `scheduler.h`. -/
def cfgW : Config :=
  { SJF_SCHD_THRESHHOLD := 100, PRI_SCHD_THRESHHOLD := 50,
    AGING_TICKS := 1500, PRIORITY_AGING := 10 }

/-- A small concrete heap: thread 0 in the middle band, all others at
priority 0. -/
def heapW : ThreadId → ThreadData := fun t =>
  if t = 0 then
    { status := ThreadStatus.NEW, priority := 60, burstTime := 5,
      startReadyTime := 0, startBurst := 0 }
  else
    { status := ThreadStatus.NEW, priority := 0, burstTime := 0,
      startReadyTime := 0, startBurst := 0 }

/-- A fresh scheduler state over `heapW`: empty queues. -/
def sInitW : SchedState :=
  { threads := heapW, readySJF := [], readyRR := [], readyPriority := [],
    toBeDestroyed := none, currentThread := 9, totalTicks := 0,
    intLevel := IntStatus.IntOff }

/-- `sInitW` after admitting thread 0. -/
def sW : SchedState := readyToRun cfgW sInitW 0

theorem C1_witness :
    cfgW.PRI_SCHD_THRESHHOLD ≤ cfgW.SJF_SCHD_THRESHHOLD ∧
    (∀ tid ∈ allQueues sW,
      (allQueues sW).count tid = 1 ∧
      (cfgW.SJF_SCHD_THRESHHOLD ≤ (sW.threads tid).priority →
        tid ∈ sW.readySJF ∧ tid ∉ sW.readyRR ∧ tid ∉ sW.readyPriority) ∧
      (cfgW.PRI_SCHD_THRESHHOLD ≤ (sW.threads tid).priority →
        (sW.threads tid).priority < cfgW.SJF_SCHD_THRESHHOLD →
        tid ∈ sW.readyRR ∧ tid ∉ sW.readySJF ∧ tid ∉ sW.readyPriority) ∧
      ((sW.threads tid).priority < cfgW.PRI_SCHD_THRESHHOLD →
        tid ∈ sW.readyPriority ∧ tid ∉ sW.readySJF ∧ tid ∉ sW.readyRR)) :=
  ⟨by decide, C1_partition_invariant cfgW sW (by decide)
    (Reachable.enqueue sInitW 0
      (Reachable.init heapW 9 0 IntStatus.IntOff) (by decide))⟩

/-- The selection contract in the spec's own words: pop the front of
the first non-empty queue in the order SJF, Round-Robin, Priority,
after running aging; `none` when all three are empty. -/
def findNextSpec (cfg : Config) (s : SchedState) : Option ThreadId × SchedState :=
  let sa := aging cfg s
  if sa.readySJF.isEmpty then
    if sa.readyRR.isEmpty then
      if sa.readyPriority.isEmpty then (none, sa)
      else (sa.readyPriority.head?, { sa with readyPriority := sa.readyPriority.tail })
    else (sa.readyRR.head?, { sa with readyRR := sa.readyRR.tail })
  else (sa.readySJF.head?, { sa with readySJF := sa.readySJF.tail })

/-- C2.  `FindNextToRun` first ages the Priority queue, then selects
with strict band priority exactly as the spec says: front of SJF if
non-empty, else front of RR, else front of Priority, and `NULL` (here
`none`) when all three queues are empty — it refines `findNextSpec`,
and it returns no thread precisely when the three queues (after aging)
are all empty. -/
theorem C2_selection_order (cfg : Config) (s : SchedState) :
    findNextToRun cfg s = findNextSpec cfg s ∧
    ((findNextToRun cfg s).1 = none ↔
      (aging cfg s).readySJF = [] ∧ (aging cfg s).readyRR = [] ∧
        (aging cfg s).readyPriority = []) := by
  unfold findNextToRun findNextSpec
  rcases hsjf : (aging cfg s).readySJF with _ | ⟨t, rest⟩
  · rcases hrr : (aging cfg s).readyRR with _ | ⟨t, rest⟩
    · rcases hpri : (aging cfg s).readyPriority with _ | ⟨t, rest⟩
      · simp [hsjf, hrr, hpri]
      · simp [hsjf, hrr, hpri]
    · simp [hsjf, hrr]
  · simp [hsjf]

/-- C3.  `ReadyToRun` sets the thread's status to `READY`, stamps its
`startReadyTime` with the current tick, leaves every other thread's
record alone, and inserts the thread into exactly one queue — the one
selected by its priority against the two thresholds — leaving the other
two queues unchanged, and touching no other state. -/
theorem C3_admission_effect (cfg : Config) (s : SchedState) (tid : ThreadId) :
    ((readyToRun cfg s tid).threads tid).status = ThreadStatus.READY ∧
    ((readyToRun cfg s tid).threads tid).startReadyTime = s.totalTicks ∧
    (∀ t, ¬ t = tid → (readyToRun cfg s tid).threads t = s.threads t) ∧
    List.Perm (allQueues (readyToRun cfg s tid)) (tid :: allQueues s) ∧
    List.Perm (readyToRun cfg s tid).readySJF
      (if cfg.SJF_SCHD_THRESHHOLD ≤ (s.threads tid).priority
        then tid :: s.readySJF else s.readySJF) ∧
    (readyToRun cfg s tid).readyRR =
      (if ¬ cfg.SJF_SCHD_THRESHHOLD ≤ (s.threads tid).priority
          ∧ cfg.PRI_SCHD_THRESHHOLD ≤ (s.threads tid).priority
        then s.readyRR ++ [tid] else s.readyRR) ∧
    List.Perm (readyToRun cfg s tid).readyPriority
      (if ¬ cfg.SJF_SCHD_THRESHHOLD ≤ (s.threads tid).priority
          ∧ ¬ cfg.PRI_SCHD_THRESHHOLD ≤ (s.threads tid).priority
        then tid :: s.readyPriority else s.readyPriority) ∧
    (readyToRun cfg s tid).totalTicks = s.totalTicks ∧
    (readyToRun cfg s tid).currentThread = s.currentThread ∧
    (readyToRun cfg s tid).toBeDestroyed = s.toBeDestroyed ∧
    (readyToRun cfg s tid).intLevel = s.intLevel := by
  refine ⟨?_, ?_, ?_, readyToRun_allQueues_perm cfg s tid,
    readyToRun_readySJF_perm cfg s tid, readyToRun_readyRR_eq cfg s tid,
    readyToRun_readyPriority_perm cfg s tid, readyToRun_totalTicks cfg s tid,
    readyToRun_currentThread cfg s tid, readyToRun_toBeDestroyed cfg s tid,
    readyToRun_intLevel cfg s tid⟩
  · rw [readyToRun_threads, if_pos rfl, readiedData_status]
  · rw [readyToRun_threads, if_pos rfl, readiedData_startReadyTime]
  · intro t ht
    rw [readyToRun_threads, if_neg ht]

/-- C4.  During the aging pass run at the start of `FindNextToRun`
(that is, by `aging` before any selection), every thread of the
Priority queue whose wait time `now - startReadyTime` has reached
`AGING_TICKS` has its priority increased by exactly `PRIORITY_AGING`
and its `startReadyTime` reset to the current tick, is repositioned so
the Priority queue still respects its descending-priority order, and —
when the boosted priority crosses a band threshold — ends up in the
queue of its new band before selection; a thread whose wait time is
below `AGING_TICKS` keeps its record unchanged and stays in the
Priority queue. -/
theorem C4_aging_effect (cfg : Config) (s : SchedState) (tid : ThreadId)
    (hcfg : cfg.PRI_SCHD_THRESHHOLD ≤ cfg.SJF_SCHD_THRESHHOLD)
    (hInv : Inv cfg s) (hmem : tid ∈ s.readyPriority)
    (hsorted : sortedByPriority s.threads s.readyPriority) :
    (cfg.AGING_TICKS ≤ (s.totalTicks : Int) - ((s.threads tid).startReadyTime : Int) →
      ((aging cfg s).threads tid).priority
          = cfg.PRIORITY_AGING + (s.threads tid).priority ∧
      ((aging cfg s).threads tid).startReadyTime = s.totalTicks ∧
      (cfg.SJF_SCHD_THRESHHOLD ≤ cfg.PRIORITY_AGING + (s.threads tid).priority →
        tid ∈ (aging cfg s).readySJF) ∧
      (cfg.PRI_SCHD_THRESHHOLD ≤ cfg.PRIORITY_AGING + (s.threads tid).priority →
        cfg.PRIORITY_AGING + (s.threads tid).priority < cfg.SJF_SCHD_THRESHHOLD →
        tid ∈ (aging cfg s).readyRR) ∧
      (cfg.PRIORITY_AGING + (s.threads tid).priority < cfg.PRI_SCHD_THRESHHOLD →
        tid ∈ (aging cfg s).readyPriority) ∧
      sortedByPriority (aging cfg s).threads (aging cfg s).readyPriority) ∧
    (¬ cfg.AGING_TICKS ≤ (s.totalTicks : Int) - ((s.threads tid).startReadyTime : Int) →
      (aging cfg s).threads tid = s.threads tid ∧ tid ∈ (aging cfg s).readyPriority) := by
  have hInv0 := hInv
  obtain ⟨hS, hR, hP, hN, hst⟩ := hInv0
  have hpriN : s.readyPriority.Nodup := nodup_readyPriority s hN
  obtain ⟨e1, e2, e3, e4, e5, e6, e7⟩ :=
    agingBoost_queues cfg s.readyPriority s (fun t ht => ht)
  have hthr := agingBoost_threads cfg s.readyPriority s hpriN
  have hmem_p : tid ∈ (agingBoost cfg s s.readyPriority).readyPriority :=
    e3.mem_iff.mpr hmem
  have spec := aging_pass_spec cfg s hInv
  have hsorted_p : sortedByPriority (agingBoost cfg s s.readyPriority).threads
      (agingBoost cfg s s.readyPriority).readyPriority :=
    agingBoost_sorted cfg s.readyPriority s (fun t ht => ht) hpriN hsorted
  constructor
  · intro hw
    have hdat : (agingBoost cfg s s.readyPriority).threads tid
        = boostedData cfg s.totalTicks (s.threads tid) := by
      rw [hthr tid, if_pos hmem]
      unfold agedData
      rw [if_pos hw]
    have hpri_p : ((agingBoost cfg s s.readyPriority).threads tid).priority
        = cfg.PRIORITY_AGING + (s.threads tid).priority := by
      rw [hdat]
      rfl
    refine ⟨?_, ?_, ?_, ?_, ?_, ?_⟩
    · rw [spec.priEq tid, hpri_p]
    · rcases spec.dataMoved tid with hq | hq
      · rw [hq, hdat]
        rfl
      · rw [hq, readiedData_startReadyTime]
        exact e4
    · intro hhigh
      exact spec.movedSJF tid hmem_p (by rw [hpri_p]; exact le_trans hcfg hhigh)
        (by rw [hpri_p]; exact hhigh)
    · intro hmid hlowS
      exact spec.movedRR tid hmem_p (by rw [hpri_p]; exact hmid)
        (by rw [hpri_p]; exact hlowS)
    · intro hlow
      exact spec.priStay tid hmem_p (by rw [hpri_p]; exact hlow)
    · have hsq : sortedByPriority (agingBoost cfg s s.readyPriority).threads
          (aging cfg s).readyPriority :=
        List.Pairwise.sublist spec.priSub hsorted_p
      exact sortedByPriority_congr _ _ _ (fun t _ => spec.priEq t) hsq
  · intro hw
    have hdat : (agingBoost cfg s s.readyPriority).threads tid = s.threads tid := by
      rw [hthr tid, if_pos hmem]
      unfold agedData
      rw [if_neg hw]
    have hlow : ((agingBoost cfg s s.readyPriority).threads tid).priority
        < cfg.PRI_SCHD_THRESHHOLD := by
      rw [hdat]
      exact hP tid hmem
    constructor
    · rw [spec.dataLow tid hlow, hdat]
    · exact spec.priStay tid hmem_p hlow

/-- A state with thread 0 waiting in the Priority queue long enough to
be aged across the band threshold. -/
def sAgingW : SchedState :=
  { threads := fun t =>
      if t = 0 then
        { status := ThreadStatus.READY, priority := 45, burstTime := 0,
          startReadyTime := 0, startBurst := 0 }
      else
        { status := ThreadStatus.NEW, priority := 0, burstTime := 0,
          startReadyTime := 0, startBurst := 0 },
    readySJF := [], readyRR := [], readyPriority := [0],
    toBeDestroyed := none, currentThread := 9, totalTicks := 2000,
    intLevel := IntStatus.IntOff }

theorem C4_witness :
    cfgW.PRI_SCHD_THRESHHOLD ≤ cfgW.SJF_SCHD_THRESHHOLD ∧ Inv cfgW sAgingW ∧
    0 ∈ sAgingW.readyPriority ∧ sortedByPriority sAgingW.threads sAgingW.readyPriority ∧
    ((cfgW.AGING_TICKS ≤ (sAgingW.totalTicks : Int)
        - ((sAgingW.threads 0).startReadyTime : Int) →
      ((aging cfgW sAgingW).threads 0).priority
          = cfgW.PRIORITY_AGING + (sAgingW.threads 0).priority ∧
      ((aging cfgW sAgingW).threads 0).startReadyTime = sAgingW.totalTicks ∧
      (cfgW.SJF_SCHD_THRESHHOLD ≤ cfgW.PRIORITY_AGING + (sAgingW.threads 0).priority →
        0 ∈ (aging cfgW sAgingW).readySJF) ∧
      (cfgW.PRI_SCHD_THRESHHOLD ≤ cfgW.PRIORITY_AGING + (sAgingW.threads 0).priority →
        cfgW.PRIORITY_AGING + (sAgingW.threads 0).priority < cfgW.SJF_SCHD_THRESHHOLD →
        0 ∈ (aging cfgW sAgingW).readyRR) ∧
      (cfgW.PRIORITY_AGING + (sAgingW.threads 0).priority < cfgW.PRI_SCHD_THRESHHOLD →
        0 ∈ (aging cfgW sAgingW).readyPriority) ∧
      sortedByPriority (aging cfgW sAgingW).threads (aging cfgW sAgingW).readyPriority) ∧
    (¬ cfgW.AGING_TICKS ≤ (sAgingW.totalTicks : Int)
        - ((sAgingW.threads 0).startReadyTime : Int) →
      (aging cfgW sAgingW).threads 0 = sAgingW.threads 0 ∧
        0 ∈ (aging cfgW sAgingW).readyPriority)) :=
  ⟨by decide, by decide, by decide, by decide,
    C4_aging_effect cfgW sAgingW 0 (by decide) (by decide) (by decide) (by decide)⟩

/-- Three threads bound for the SJF band: burst estimates 5, 2 and 8
(threads 0, 1 and 2), priorities at the SJF threshold. -/
def heapSJF (cfg : Config) : ThreadId → ThreadData := fun t =>
  if t = 0 then
    { status := ThreadStatus.NEW, priority := cfg.SJF_SCHD_THRESHHOLD, burstTime := 5,
      startReadyTime := 0, startBurst := 0 }
  else if t = 1 then
    { status := ThreadStatus.NEW, priority := cfg.SJF_SCHD_THRESHHOLD, burstTime := 2,
      startReadyTime := 0, startBurst := 0 }
  else
    { status := ThreadStatus.NEW, priority := cfg.SJF_SCHD_THRESHHOLD, burstTime := 8,
      startReadyTime := 0, startBurst := 0 }

/-- Fresh scheduler state over `heapSJF`. -/
def sSJF0 (cfg : Config) : SchedState :=
  { threads := heapSJF cfg, readySJF := [], readyRR := [], readyPriority := [],
    toBeDestroyed := none, currentThread := 9, totalTicks := 0,
    intLevel := IntStatus.IntOff }

/-- The state after admitting, in this order, the threads with burst
estimates 5, 2 and 8. -/
def sSJF3 (cfg : Config) : SchedState :=
  readyToRun cfg (readyToRun cfg (readyToRun cfg (sSJF0 cfg) 0) 1) 2

/-- C5.  Threads admitted to the SJF band are selected in ascending
order of predicted burst, regardless of admission order: admitting
bursts 5, 2, 8 in that order, the SJF queue holds them as (2, 5, 8) and
three successive `FindNextToRun` calls return exactly the threads with
bursts 2, then 5, then 8 — for every configuration of the threshold
constants. -/
theorem C5_sjf_order (cfg : Config) :
    (sSJF3 cfg).readySJF = [1, 0, 2] ∧
    ((sSJF3 cfg).threads 1).burstTime = 2 ∧
    ((sSJF3 cfg).threads 0).burstTime = 5 ∧
    ((sSJF3 cfg).threads 2).burstTime = 8 ∧
    (findNextToRun cfg (sSJF3 cfg)).1 = some 1 ∧
    (findNextToRun cfg (findNextToRun cfg (sSJF3 cfg)).2).1 = some 0 ∧
    (findNextToRun cfg
      (findNextToRun cfg (findNextToRun cfg (sSJF3 cfg)).2).2).1 = some 2 := by
  have h3 : sSJF3 cfg = { sSJF0 cfg with
      threads := fun t =>
        if t = 2 then readiedData (sSJF0 cfg) 2
        else if t = 1 then readiedData (sSJF0 cfg) 1
        else if t = 0 then readiedData (sSJF0 cfg) 0
        else heapSJF cfg t,
      readySJF := [1, 0, 2] } := by
    unfold sSJF3
    norm_num [readyToRun, readiedData, SchedState.setThread, sortedInsert,
      compare_by_burst, sSJF0, heapSJF]
  rw [h3]
  refine ⟨rfl, rfl, rfl, rfl, ?_, ?_, ?_⟩ <;>
    norm_num [findNextToRun, aging, agingBoost, agingStep, processMoving,
      movePassSJFStep, movePassRRStep, movePassPriStep, readyToRun, readiedData,
      SchedState.setThread, sortedInsert, compare_by_burst, compare_by_priority,
      sSJF0, heapSJF]

/-- A state whose interrupt level is `IntOn` (interrupts enabled), with
a thread pending in no queue; used to exercise the assertion paths. -/
def sIntOn : SchedState :=
  { threads := heapW, readySJF := [], readyRR := [], readyPriority := [],
    toBeDestroyed := none, currentThread := 3, totalTicks := 40,
    intLevel := IntStatus.IntOn }

/-- C6, counterexample.  The claim says every scheduler entry point,
`Run` included, triggers the fatal assertion when called with
interrupts enabled.  But `Run`'s same-thread fast exit (scheduler.cc:181)
comes before its interrupt assertion (scheduler.cc:183): with interrupts
enabled and `nextThread` equal to the current thread, `Run` returns
normally (no assertion, modelled as `some` rather than `none`) — even
with `finishing` set. -/
theorem C6_counterexample :
    sIntOn.intLevel = IntStatus.IntOn ∧
    run cfgW sIntOn sIntOn.currentThread true = some (sIntOn, false) :=
  ⟨rfl, run_same cfgW sIntOn true⟩

/-- C6, amended.  With interrupts enabled, `ReadyToRun` and
`FindNextToRun` always hit their fatal assertion before touching any
state, and `Run` does so unless its same-thread fast exit fires first;
in every case no queue or thread mutation is reachable: each entry
point either halts or returns the state unchanged without invoking the
context switch. -/
theorem C6_interrupts_enabled (cfg : Config) (s : SchedState) (tid next : ThreadId)
    (fin : Bool) (hint : s.intLevel = IntStatus.IntOn) :
    readyToRunChecked cfg s tid = none ∧
    findNextToRunChecked cfg s = none ∧
    (¬ s.currentThread = next → run cfg s next fin = none) ∧
    (run cfg s next fin = none ∨ run cfg s next fin = some (s, false)) := by
  have hoff : ¬ s.intLevel = IntStatus.IntOff := by
    rw [hint]
    intro h
    exact IntStatus.noConfusion h
  refine ⟨?_, ?_, ?_, ?_⟩
  · unfold readyToRunChecked
    rw [if_neg hoff]
  · unfold findNextToRunChecked
    rw [if_neg hoff]
  · intro hne
    exact run_int_fail cfg s next fin hne hoff
  · by_cases hsame : s.currentThread = next
    · right
      rw [← hsame]
      exact run_same cfg s fin
    · left
      exact run_int_fail cfg s next fin hsame hoff

theorem C6_witness :
    sIntOn.intLevel = IntStatus.IntOn ∧
    (readyToRunChecked cfgW sIntOn 0 = none ∧
     findNextToRunChecked cfgW sIntOn = none ∧
     (¬ sIntOn.currentThread = 7 → run cfgW sIntOn 7 false = none) ∧
     (run cfgW sIntOn 7 false = none ∨ run cfgW sIntOn 7 false = some (sIntOn, false))) :=
  ⟨rfl, C6_interrupts_enabled cfgW sIntOn 0 7 false rfl⟩

/-- C7.  On every dispatch where the incoming thread differs from the
running one (and the preconditions hold so no assertion fires), the
outgoing thread's burst estimate is recomputed as exactly
`0.5 * ((now - burstStartTick) + previousEstimate)` and the incoming
thread's burst start tick is set to `now`, before the context switch is
invoked. -/
theorem C7_burst_estimate (cfg : Config) (s : SchedState) (next : ThreadId) (fin : Bool)
    (hne : ¬ s.currentThread = next) (hint : s.intLevel = IntStatus.IntOff)
    (htbd : fin = true → s.toBeDestroyed = none) :
    ∃ s', run cfg s next fin = some (s', true) ∧
      (s'.threads s.currentThread).burstTime
        = (1 / 2 : ℚ) * ((((s.totalTicks : Int) -
              ((s.threads s.currentThread).startBurst : Int) : Int) : ℚ)
            + (s.threads s.currentThread).burstTime) ∧
      (s'.threads next).startBurst = s.totalTicks := by
  obtain ⟨s', hrun, _, _, _, _, _, _, _, _, eOld, eNext⟩ :=
    run_ok cfg s next fin hne hint htbd
  refine ⟨s', hrun, ?_, ?_⟩
  · rw [eOld]
  · rw [eNext]

/-- A running state for exercising `Run`: current thread 5 started its
burst at tick 10, estimate 6; dispatching to thread 7 at tick 30. -/
def sRunW : SchedState :=
  { threads := fun t =>
      if t = 5 then
        { status := ThreadStatus.RUNNING, priority := 60, burstTime := 6,
          startReadyTime := 0, startBurst := 10 }
      else
        { status := ThreadStatus.READY, priority := 60, burstTime := 1,
          startReadyTime := 0, startBurst := 0 },
    readySJF := [], readyRR := [], readyPriority := [],
    toBeDestroyed := none, currentThread := 5, totalTicks := 30,
    intLevel := IntStatus.IntOff }

theorem C7_witness :
    ¬ sRunW.currentThread = 7 ∧ sRunW.intLevel = IntStatus.IntOff ∧
    (∃ s', run cfgW sRunW 7 false = some (s', true) ∧
      (s'.threads sRunW.currentThread).burstTime
        = (1 / 2 : ℚ) * ((((sRunW.totalTicks : Int) -
              ((sRunW.threads sRunW.currentThread).startBurst : Int) : Int) : ℚ)
            + (sRunW.threads sRunW.currentThread).burstTime) ∧
      (s'.threads 7).startBurst = sRunW.totalTicks) :=
  ⟨by decide, rfl,
    C7_burst_estimate cfgW sRunW 7 false (by decide) rfl (fun h => Bool.noConfusion h)⟩

/-- C8.  Dispatching to the thread that is already current is a
complete no-op, whatever the `finishing` flag: the state is returned
untouched (queues, thread records, current-thread pointer and the
deferred-destruction slot included) and the context-switch primitive is
not invoked (the `false` flag). -/
theorem C8_same_thread_noop (cfg : Config) (s : SchedState) (fin : Bool) :
    run cfg s s.currentThread fin = some (s, false) :=
  run_same cfg s fin

/-- C9.  The same-thread fast exit precedes both the interrupt
assertion and the finishing logic: calling `Run` with the current
thread and `finishing = true` returns at once even when interrupts are
enabled (no assertion fires), and the state comes back identical — in
particular `toBeDestroyed` is not set, so the destruction request is
silently dropped. -/
theorem C9_fast_exit_before_checks (cfg : Config) (s : SchedState)
    (_hint : s.intLevel = IntStatus.IntOn) :
    run cfg s s.currentThread true = some (s, false) :=
  run_same cfg s true

theorem C9_witness :
    sIntOn.intLevel = IntStatus.IntOn ∧
    run cfgW sIntOn sIntOn.currentThread true = some (sIntOn, false) ∧
    sIntOn.toBeDestroyed = none :=
  ⟨rfl, C9_fast_exit_before_checks cfgW sIntOn rfl, rfl⟩

/-- C10.  `ReadyToRun` checks neither the thread's status nor its queue
membership: re-admitting a thread that is already in the Round-Robin
queue (its band) appends a second reference, so the thread then
occupies two queue positions at once. -/
theorem C10_double_insertion (cfg : Config) (s : SchedState) (tid : ThreadId)
    (hmem : tid ∈ s.readyRR)
    (h1 : ¬ cfg.SJF_SCHD_THRESHHOLD ≤ (s.threads tid).priority)
    (h2 : cfg.PRI_SCHD_THRESHHOLD ≤ (s.threads tid).priority) :
    (readyToRun cfg s tid).readyRR.count tid = s.readyRR.count tid + 1 ∧
    2 ≤ (readyToRun cfg s tid).readyRR.count tid := by
  have hc : (readyToRun cfg s tid).readyRR.count tid = s.readyRR.count tid + 1 := by
    rw [readyToRun_readyRR_eq, if_pos ⟨h1, h2⟩, List.count_append]
    simp
  refine ⟨hc, ?_⟩
  rw [hc]
  have hpos : 0 < s.readyRR.count tid := List.count_pos_iff.mpr hmem
  omega

/-- A state with thread 0 already sitting in the Round-Robin queue. -/
def sDupW : SchedState :=
  { threads := heapW, readySJF := [], readyRR := [0], readyPriority := [],
    toBeDestroyed := none, currentThread := 9, totalTicks := 12,
    intLevel := IntStatus.IntOff }

theorem C10_witness :
    0 ∈ sDupW.readyRR ∧
    ¬ cfgW.SJF_SCHD_THRESHHOLD ≤ (sDupW.threads 0).priority ∧
    cfgW.PRI_SCHD_THRESHHOLD ≤ (sDupW.threads 0).priority ∧
    ((readyToRun cfgW sDupW 0).readyRR.count 0 = sDupW.readyRR.count 0 + 1 ∧
      2 ≤ (readyToRun cfgW sDupW 0).readyRR.count 0) :=
  ⟨by decide, by decide, by decide,
    C10_double_insertion cfgW sDupW 0 (by decide) (by decide) (by decide)⟩

end NachosScheduler
